import Mathlib

/-!
Verification of the research-helper repository (Go) against its
natural-language specification.  The Go source is shallowly embedded:
pure computations become Lean functions, SQL-issuing code becomes
functions returning the SQL text it would execute, LLM calls become
oracle parameters, and the concurrent acquisition phase becomes an
explicit scheduler over atomic steps (the atomic blocks are exactly the
mutex-protected regions of the source).
-/

/-! ## Table-name validation (pkg/vectorstore/pgvector.go) -/

/-- Character class `[a-zA-Z0-9_]` of the table-name regex. -/
def isTableNameChar (c : Char) : Bool :=
  ('a' ≤ c && c ≤ 'z') || ('A' ≤ c && c ≤ 'Z') || ('0' ≤ c && c ≤ '9') || c = '_'

/-- isValidTableName from pgvector.go: anchored match of
`[a-z_][a-zA-Z0-9_]` with the tail limited to 62 characters
(1 to 63 characters in total). -/
def isValidTableName (s : String) : Bool :=
  match s.data with
  | [] => false
  | c :: rest =>
      (('a' ≤ c && c ≤ 'z') || c = '_') && decide (rest.length ≤ 62)
        && rest.all isTableNameChar

/-- The vector-store handle; only the table name matters for the embedding
(the pool is external I/O). -/
structure PGVectorStore where
  tableName : String
deriving Repr, DecidableEq

/-- NewPGVectorStore from pgvector.go: validates the table name and
constructs the store, or fails. -/
def newPGVectorStore (tableName : String) : Except String PGVectorStore :=
  if isValidTableName tableName then
    .ok ⟨tableName⟩
  else
    .error "invalid table name: must contain only alphanumeric characters and underscores, start with a letter or underscore, and be 1-63 characters long"

/-- pgx Identifier Sanitize: double-quote the identifier, doubling any
embedded double quote. -/
def sanitizeIdent (s : String) : String :=
  "\"" ++ ⟨s.data.foldr (fun c acc => if c = '"' then '"' :: '"' :: acc else c :: acc) []⟩ ++ "\""

/-! ## CreateEmbeddingsTable (pkg/database/postgres.go)

The Go function interpolates `tableName` with fmt.Sprintf into the SQL
text and performs NO validation; we split the format string around the
two interpolation points. -/

def createTablePrefix : String := "\n\t\tCREATE TABLE IF NOT EXISTS "

def createTableMid : String :=
  " (\n\t\t\tid UUID PRIMARY KEY DEFAULT gen_random_uuid(),\n\t\t\tcontent TEXT NOT NULL,\n\t\t\tmetadata JSONB,\n\t\t\tembedding vector("

def createTableSuffix : String :=
  "),\n\t\t\tcreated_at TIMESTAMP WITH TIME ZONE DEFAULT NOW()\n\t\t)\n\t"

/-- The CREATE TABLE statement issued by CreateEmbeddingsTable. -/
def createEmbeddingsTableSQL (tableName : String) (dimension : Nat) : String :=
  createTablePrefix ++ tableName ++ createTableMid ++ toString dimension ++ createTableSuffix

/-- The CREATE INDEX statement issued by CreateEmbeddingsTable when the
dimension admits an HNSW index. -/
def createIndexSQL (tableName : String) : String :=
  "\n\t\t\tCREATE INDEX IF NOT EXISTS " ++ tableName ++ "_embedding_idx\n\t\t\tON "
    ++ tableName ++ " USING hnsw (embedding vector_cosine_ops)\n\t\t"

/-- CreateEmbeddingsTable from postgres.go: the list of SQL statements it
executes.  The index is created iff dimension is at most 2000.  There is
no table-name validation on this path. -/
def createEmbeddingsTable (tableName : String) (dimension : Nat) : List String :=
  if dimension ≤ 2000 then
    [createEmbeddingsTableSQL tableName dimension, createIndexSQL tableName]
  else
    [createEmbeddingsTableSQL tableName dimension]

/-- The WHERE-by-source query of GetContentBySource, built on the name
validated at construction time (identifier-quoted). -/
def getContentBySourceSQL (vs : PGVectorStore) : String :=
  "\n\t\tSELECT id, content, metadata\n\t\tFROM " ++ sanitizeIdent vs.tableName
    ++ "\n\t\tWHERE metadata->>'source' = $1\n\t"

/-! ## Claim C1 -/

/-- Claim C1 counterexample: the collection-creation entry point
(CreateEmbeddingsTable) does not enforce the table-name regex.  For the
name `users; DROP TABLE x`, which the regex rejects, the function still
issues its statements and the raw name is interpolated into the SQL text
without any validation. -/
theorem c1_create_table_skips_validation :
    isValidTableName "users; DROP TABLE x" = false ∧
    (createEmbeddingsTable "users; DROP TABLE x" 1536).length = 2 ∧
    createEmbeddingsTableSQL "users; DROP TABLE x" 1536 =
      createTablePrefix ++ "users; DROP TABLE x"
        ++ (createTableMid ++ toString 1536 ++ createTableSuffix) := by
  refine ⟨by decide, by rfl, ?_⟩
  simp [createEmbeddingsTableSQL, String.append_assoc]

/-- Claim C1, amended: construction via NewPGVectorStore succeeds iff the
name matches the regex, the store only ever carries a name validated at
construction (which the query operations then interpolate
identifier-quoted), but CreateEmbeddingsTable interpolates its argument
into SQL for every name, with no validation. -/
theorem c1_validation_at_construction_only :
    (∀ name, (∃ vs, newPGVectorStore name = .ok vs) ↔ isValidTableName name = true) ∧
    (∀ name vs, newPGVectorStore name = .ok vs →
      vs.tableName = name ∧ isValidTableName vs.tableName = true ∧
      getContentBySourceSQL vs =
        "\n\t\tSELECT id, content, metadata\n\t\tFROM " ++ sanitizeIdent name
          ++ "\n\t\tWHERE metadata->>'source' = $1\n\t") ∧
    (∀ name dimension, createEmbeddingsTableSQL name dimension =
      createTablePrefix ++ name
        ++ (createTableMid ++ toString dimension ++ createTableSuffix)) := by
  refine ⟨?_, ?_, ?_⟩
  · intro name
    constructor
    · rintro ⟨vs, h⟩
      by_contra hv
      simp [newPGVectorStore, Bool.not_eq_true] at h hv
      rw [if_neg] at h
      · exact Except.noConfusion h
      · simp [hv]
    · intro hv
      exact ⟨⟨name⟩, by simp [newPGVectorStore, hv]⟩
  · intro name vs h
    by_cases hv : isValidTableName name = true
    · simp [newPGVectorStore, hv] at h
      subst h
      exact ⟨rfl, hv, rfl⟩
    · simp [newPGVectorStore, hv] at h
  · intro name dimension
    simp [createEmbeddingsTableSQL, String.append_assoc]

/-- Witness for the amended C1 at the concrete collection name used by
the system (`thesis_db`) and the rejected injection string. -/
theorem c1_validation_at_construction_only_witness :
    (∃ vs, newPGVectorStore "thesis_db" = .ok vs) ∧
    ¬ (∃ vs, newPGVectorStore "users; DROP TABLE x" = .ok vs) := by
  constructor
  · exact (c1_validation_at_construction_only.1 "thesis_db").2 (by decide)
  · intro h
    have := (c1_validation_at_construction_only.1 "users; DROP TABLE x").1 h
    simp at this
    exact absurd this (by decide)

/-! ## Search results and the filter phase (pkg/research, part_004) -/

/-- A single search result (research/types). -/
structure SearchResult where
  title : String
  url : String
  snippet : String
deriving Repr, DecidableEq

/-- A scored candidate as returned by the filter LLM
(`scores: [ (id, score) ]`); Go ints are modelled as Int since the LLM
may return negative ids. -/
structure ScoreItem where
  id : Int
  score : Int
deriving Repr, DecidableEq

/-- Go slice indexing `results[i]` with an Int index: defined only for
indices inside the slice; any other access panics at runtime, modelled
as none. -/
def sliceIndex (l : List SearchResult) (i : Int) : Option SearchResult :=
  if h : 0 ≤ i ∧ i.toNat < l.length then some (l.get ⟨i.toNat, h.2⟩) else none

/-- The keep loop of filterPhase: for each score item, if
`score >= 7 && id < len(results)` the code appends `results[id]`.
The guard has no lower bound, so a negative id reaches the slice access;
a panic is modelled as none for the whole phase. -/
def filterPhaseKeep (results : List SearchResult) : List ScoreItem → List SearchResult → Option (List SearchResult)
  | [], acc => some acc
  | item :: rest, acc =>
      if item.score ≥ 7 ∧ item.id < (results.length : Int) then
        match sliceIndex results item.id with
        | some r => filterPhaseKeep results rest (acc ++ [r])
        | none => none
      else
        filterPhaseKeep results rest acc

/-- filterPhase result on a parsed LLM score response. -/
def filterPhase (results : List SearchResult) (scores : List ScoreItem) : Option (List SearchResult) :=
  filterPhaseKeep results scores []

/-- Claim C3: the guard `item.ID < len(results)` lacks a lower bound, so
an LLM response with a negative id and score at least 7 drives the slice
access out of bounds (a Go panic): the phase crashes instead of dropping
the id.  Evaluated at the failing input: one candidate, one returned
score with id -1 and score 9. -/
theorem c3_negative_id_out_of_bounds :
    filterPhase [⟨"t", "u", "s"⟩] [⟨-1, 9⟩] = none ∧
    sliceIndex [⟨"t", "u", "s"⟩] (-1) = none ∧
    ((-1 : Int) < ([(⟨"t", "u", "s"⟩ : SearchResult)].length : Int) ∧ (9 : Int) ≥ 7) := by
  refine ⟨?_, by decide, by decide⟩
  simp [filterPhase, filterPhaseKeep, sliceIndex]

/-! ## UTF-8-safe truncation (acquireAndIndexPhase, part_004) -/

/-- The excerpt computation: `runes := []rune(fullText)` followed by
`string(runes[:500])` when more than 500 runes.  Lean String data is the
list of code points, exactly Go's []rune. -/
def excerptOf (s : String) : String :=
  if s.data.length > 500 then ⟨s.data.take 500⟩ else s

/-- UTF-8 encoding of one code point (1 to 4 bytes). -/
def utf8EncodeChar (c : Char) : List Nat :=
  let n := c.toNat
  if n < 0x80 then [n]
  else if n < 0x800 then
    [0xC0 ||| (n >>> 6), 0x80 ||| (n &&& 0x3F)]
  else if n < 0x10000 then
    [0xE0 ||| (n >>> 12), 0x80 ||| ((n >>> 6) &&& 0x3F), 0x80 ||| (n &&& 0x3F)]
  else
    [0xF0 ||| (n >>> 18), 0x80 ||| ((n >>> 12) &&& 0x3F),
      0x80 ||| ((n >>> 6) &&& 0x3F), 0x80 ||| (n &&& 0x3F)]

/-- UTF-8 encoding of a code-point sequence. -/
def utf8Encode : List Char → List Nat
  | [] => []
  | c :: cs => utf8EncodeChar c ++ utf8Encode cs

theorem utf8Encode_append (l₁ l₂ : List Char) :
    utf8Encode (l₁ ++ l₂) = utf8Encode l₁ ++ utf8Encode l₂ := by
  induction l₁ with
  | nil => rfl
  | cons c cs ih => simp [utf8Encode, ih]

/-- The per-source summary string composed in acquireAndIndexPhase. -/
def mkSummary (item : SearchResult) (fullText : String) : String :=
  "Source: " ++ item.title ++ "\nSummary: " ++ item.snippet
    ++ "\nExcerpts: " ++ excerptOf fullText ++ "..."

/-- Claim C8: the excerpt is exactly the first 500 code points (the whole
text when it has at most 500), and the cut is on a code-point boundary:
the UTF-8 bytes of the excerpt are a prefix of the UTF-8 bytes of the
text, with the remainder being the encoding of the dropped code points —
no multi-byte rune is ever sliced. -/
theorem c8_excerpt_code_point_truncation (s : String) :
    (excerptOf s).data = s.data.take 500 ∧
    (excerptOf s).data.length = min 500 s.data.length ∧
    utf8Encode (excerptOf s).data ++ utf8Encode (s.data.drop 500) = utf8Encode s.data ∧
    (s.data.length ≤ 500 → excerptOf s = s) := by
  have hdata : (excerptOf s).data = s.data.take 500 := by
    unfold excerptOf
    split
    · rfl
    · next h => exact (List.take_of_length_le (by omega)).symm
  refine ⟨hdata, ?_, ?_, ?_⟩
  · rw [hdata, List.length_take]
  · rw [hdata, ← utf8Encode_append, List.take_append_drop]
  · intro hle
    unfold excerptOf
    rw [if_neg (by omega)]

/-! ## Chat SendMessage title-generation condition (pkg/chat/service.go) -/

/-- A persisted chat message (uuid modelled as Nat). -/
structure ChatMsg where
  id : Nat
  role : String
  content : String
deriving Repr, DecidableEq

/-- Outcome of the completed-stream path of SendMessage that the claim
is about: the history fetched after saving the user message, and whether
the asynchronous title-generation task is spawned. -/
structure SendOutcome where
  history : List ChatMsg
  spawnTitle : Bool
deriving Repr, DecidableEq

/-- SendMessage (stream running to completion): the user message is
persisted first, so the history subsequently read back contains the
prior messages plus the just-saved one; the title task is spawned when
`len(history) <= 2`. -/
def sendMessage (prior : List ChatMsg) (userMsgId : Nat) (content : String) : SendOutcome :=
  let history := prior ++ [⟨userMsgId, "user", content⟩]
  { history := history, spawnTitle := decide (history.length ≤ 2) }

/-- The hard timeout of the title-generation call, in seconds. -/
def generateTitleTimeoutSeconds : Nat := 10

/-- Claim C9 counterexample: a conversation with exactly 2 prior
messages (which is at most 2) does NOT spawn the title task, because the
history checked by the code includes the just-saved user message and
therefore has 3 entries. -/
theorem c9_two_prior_messages_no_title :
    (sendMessage [⟨1, "user", "q"⟩, ⟨2, "model", "a"⟩] 3 "next").spawnTitle = false ∧
    ([(⟨1, "user", "q"⟩ : ChatMsg), ⟨2, "model", "a"⟩].length ≤ 2) := by
  constructor
  · rfl
  · decide

/-- Claim C9, amended: the title task is spawned iff the conversation
had at most 1 prior message, equivalently iff the post-save history
(prior messages plus the just-saved user message) has at most 2 entries;
the task runs under a 10-second timeout. -/
theorem c9_title_spawn_condition (prior : List ChatMsg) (userMsgId : Nat) (content : String) :
    ((sendMessage prior userMsgId content).spawnTitle = true ↔ prior.length ≤ 1) ∧
    (sendMessage prior userMsgId content).history = prior ++ [⟨userMsgId, "user", content⟩] ∧
    generateTitleTimeoutSeconds = 10 := by
  refine ⟨?_, rfl, rfl⟩
  simp [sendMessage]

/-! ## generateWithRetry (part_004)

The LLM is an oracle: attempt index to outcome.  Sleeps are collected so
the backoff schedule is part of the function's observable result. -/

/-- Outcome of one GenerateContent call. -/
inductive LLMResult where
  | genError (e : String)
  | noChoices
  | content (s : String)
deriving Repr, DecidableEq

/-- Environment of one generateWithRetry call: the LLM oracle and the
caller-supplied validator. -/
structure RetryEnv where
  respond : Nat → LLMResult
  validate : String → Except String Unit

/-- The retry loop body: `for i := 0; i < maxRetries; i++`, sleeping i
seconds before every attempt with i > 0, classifying the three failure
kinds exactly as the source, returning the first validated content. -/
def retryFrom (env : RetryEnv) : Nat → Nat → Option String → List Nat → Except String String × List Nat
  | _, 0, lastErr, sleeps =>
      (.error ("operation failed after 3 retries: " ++ lastErr.getD ""), sleeps)
  | i, r + 1, _, sleeps =>
      let sleeps' := if 0 < i then sleeps ++ [i] else sleeps
      match env.respond i with
      | .genError e => retryFrom env (i + 1) r (some ("llm generation failed: " ++ e)) sleeps'
      | .noChoices => retryFrom env (i + 1) r (some "llm returned no choices") sleeps'
      | .content c =>
          match env.validate c with
          | .error e => retryFrom env (i + 1) r (some ("validation failed: " ++ e)) sleeps'
          | .ok _ => (.ok c, sleeps')

/-- generateWithRetry from part_004 with maxRetries = 3. -/
def generateWithRetry (env : RetryEnv) : Except String String × List Nat :=
  retryFrom env 0 3 none []

/-- An attempt succeeds when the LLM returns a choice whose content
passes the validator; the validated content is the result. -/
def attemptOk (env : RetryEnv) (i : Nat) : Option String :=
  match env.respond i with
  | .content c =>
      match env.validate c with
      | .ok _ => some c
      | .error _ => none
  | _ => none

theorem retryFrom_success_step (env : RetryEnv) (i r : Nat) (lastErr : Option String)
    (sleeps : List Nat) (c : String) (h : attemptOk env i = some c) :
    retryFrom env i (r + 1) lastErr sleeps = (.ok c, if 0 < i then sleeps ++ [i] else sleeps) := by
  cases hr : env.respond i <;> simp [attemptOk, hr] at h
  next s =>
    cases hv : env.validate s <;> simp [hv] at h
    subst h
    simp [retryFrom, hr, hv]

theorem retryFrom_fail_step (env : RetryEnv) (i r : Nat) (lastErr : Option String)
    (sleeps : List Nat) (h : attemptOk env i = none) :
    ∃ e, retryFrom env i (r + 1) lastErr sleeps =
      retryFrom env (i + 1) r (some e) (if 0 < i then sleeps ++ [i] else sleeps) := by
  cases hr : env.respond i
  case genError e =>
    refine ⟨"llm generation failed: " ++ e, ?_⟩
    simp [retryFrom, hr]
  case noChoices =>
    refine ⟨"llm returned no choices", ?_⟩
    simp [retryFrom, hr]
  case content s =>
    cases hv : env.validate s
    case error e =>
      refine ⟨"validation failed: " ++ e, ?_⟩
      simp [retryFrom, hr, hv]
    case ok u =>
      simp [attemptOk, hr, hv] at h

/-- Claim C6: a generateWithRetry call (used by both the Plan and Filter
phases) retries up to 3 attempts; before attempt i+1 it sleeps i seconds
(the collected sleep schedule for a first success at zero-based attempt
k is the list 1, ..., k); the first response that validates is returned;
and after 3 consecutive failures an error is returned, which the Run
loop propagates, aborting the run. -/
theorem c6_retry_with_linear_backoff :
    (∀ env k c, k < 3 → attemptOk env k = some c →
      (∀ j, j < k → attemptOk env j = none) →
      generateWithRetry env = (.ok c, List.range' 1 k)) ∧
    (∀ env, (∀ j, j < 3 → attemptOk env j = none) →
      ∃ msg, generateWithRetry env = (.error msg, [1, 2])) := by
  constructor
  · intro env k c hk hsucc hprev
    unfold generateWithRetry
    have hk3 : k = 0 ∨ k = 1 ∨ k = 2 := by omega
    rcases hk3 with rfl | rfl | rfl
    · rw [retryFrom_success_step env 0 2 none [] c hsucc]
      rfl
    · obtain ⟨e0, h0⟩ := retryFrom_fail_step env 0 2 none [] (hprev 0 (by omega))
      rw [h0]
      rw [retryFrom_success_step env 1 1 (some e0) _ c hsucc]
      rfl
    · obtain ⟨e0, h0⟩ := retryFrom_fail_step env 0 2 none [] (hprev 0 (by omega))
      rw [h0]
      obtain ⟨e1, h1⟩ := retryFrom_fail_step env 1 1 (some e0) _ (hprev 1 (by omega))
      rw [h1]
      rw [retryFrom_success_step env 2 0 (some e1) _ c hsucc]
      rfl
  · intro env hfail
    unfold generateWithRetry
    obtain ⟨e0, h0⟩ := retryFrom_fail_step env 0 2 none [] (hfail 0 (by omega))
    rw [h0]
    obtain ⟨e1, h1⟩ := retryFrom_fail_step env 1 1 (some e0) _ (hfail 1 (by omega))
    rw [h1]
    obtain ⟨e2, h2⟩ := retryFrom_fail_step env 2 0 (some e1) _ (hfail 2 (by omega))
    rw [h2]
    exact ⟨"operation failed after 3 retries: " ++ e2, by simp [retryFrom]⟩

/-- A concrete retry environment: the LLM errors on the first two
attempts and returns valid content on the third. -/
def retryDemoEnv : RetryEnv where
  respond := fun i => if i < 2 then .genError "transient" else .content "ok"
  validate := fun _ => .ok ()

/-- Witness for C6: on the demo environment the third attempt is
returned after sleeping 1 then 2 seconds. -/
theorem c6_retry_with_linear_backoff_witness :
    generateWithRetry retryDemoEnv = (.ok "ok", [1, 2]) := by
  have h := c6_retry_with_linear_backoff.1 retryDemoEnv 2 "ok" (by omega)
    (by rfl) (by intro j hj; interval_cases j <;> rfl)
  simpa using h

/-! ## The metadata filter compiler (GetContentByMetadata / buildMetadataQuery)

Go `map[string]interface{}` filters are embedded as ordered entry lists
(covering every possible Go map iteration order, since the claims are
universally quantified over trees), Go `[]interface{}` as JList, and
scalar leaves as string/number/bool/null. -/

mutual
inductive JVal where
  | str (s : String)
  | num (n : Int)
  | boolean (b : Bool)
  | null
  | arr (items : JList)
  | obj (entries : JObj)
deriving Repr, DecidableEq

inductive JList where
  | nil
  | cons (head : JVal) (tail : JList)
deriving Repr, DecidableEq

inductive JObj where
  | nil
  | cons (key : String) (val : JVal) (tail : JObj)
deriving Repr, DecidableEq
end

/-- Lower-case hex digit. -/
def hexDigit (n : Nat) : Char :=
  if n < 10 then Char.ofNat ('0'.toNat + n) else Char.ofNat ('a'.toNat + n - 10)

/-- Escaping of one character as in Go encoding/json (HTML-escaping of
angle brackets and ampersand included, as Go does by default). -/
def escapeChar (c : Char) : List Char :=
  if c = '"' then ['\\', '"']
  else if c = '\\' then ['\\', '\\']
  else if c = '\n' then ['\\', 'n']
  else if c = '\r' then ['\\', 'r']
  else if c = '\t' then ['\\', 't']
  else if c = '<' then ['\\', 'u', '0', '0', '3', 'c']
  else if c = '>' then ['\\', 'u', '0', '0', '3', 'e']
  else if c = '&' then ['\\', 'u', '0', '0', '2', '6']
  else if c.toNat < 32 then ['\\', 'u', '0', '0', hexDigit (c.toNat / 16), hexDigit (c.toNat % 16)]
  else if c.toNat = 0x2028 then ['\\', 'u', '2', '0', '2', '8']
  else if c.toNat = 0x2029 then ['\\', 'u', '2', '0', '2', '9']
  else [c]

/-- JSON string literal encoding. -/
def encodeJSONString (s : String) : String :=
  "\"" ++ ⟨s.data.foldr (fun c acc => escapeChar c ++ acc) []⟩ ++ "\""

/-! JSON value encoding as produced by Go json.Marshal.  Entry order of
objects is kept as given; every parameter marshalled by the compiler is
a single-key object, so Go's key sorting never reorders anything the
compiler emits. -/
mutual
def encodeJVal : JVal → String
  | .str s => encodeJSONString s
  | .num n => toString n
  | .boolean b => if b then "true" else "false"
  | .null => "null"
  | .arr items => "[" ++ encodeJList items ++ "]"
  | .obj entries => "\x7b" ++ encodeJObj entries ++ "\x7d"

def encodeJList : JList → String
  | .nil => ""
  | .cons v .nil => encodeJVal v
  | .cons v rest => encodeJVal v ++ "," ++ encodeJList rest

def encodeJObj : JObj → String
  | .nil => ""
  | .cons k v .nil => encodeJSONString k ++ ":" ++ encodeJVal v
  | .cons k v rest => encodeJSONString k ++ ":" ++ encodeJVal v ++ "," ++ encodeJObj rest
end

/-- json.Marshal of the single-pair map built for a plain filter key. -/
def encodePair (k : String) (v : JVal) : String :=
  "\x7b" ++ encodeJSONString k ++ ":" ++ encodeJVal v ++ "\x7d"

/-- strings.Join. -/
def joinSep (sep : String) : List String → String
  | [] => ""
  | [s] => s
  | s :: rest => s ++ (sep ++ joinSep sep rest)

/-- The tail of buildMetadataQuery applied to the collected conditions:
an empty filter map or an empty condition list yields TRUE, otherwise
the conditions are joined with AND. -/
def wrapConds (filter : JObj) (conds : List String) : String :=
  match filter with
  | .nil => "TRUE"
  | .cons _ _ _ => if conds.isEmpty then "TRUE" else joinSep " AND " conds

/-! The entry loop of buildMetadataQuery (pgvector.go 226-291): walks the
filter entries, threading the parameter buffer `args`, and collects one
SQL condition per entry.  The recursive calls the source makes to
buildMetadataQuery on sub-objects are inlined as buildConds followed by
wrapConds (exactly the body of buildMetadataQuery). -/
mutual
def buildConds : JObj → List String → Except String (List String × List String)
  | .nil, args => .ok ([], args)
  | .cons k v rest, args =>
      if k = "$and" ∨ k = "$or" then
        match v with
        | .arr items =>
            match buildListConds k items args with
            | .error e => .error e
            | .ok (subConds, args₁) =>
                match buildConds rest args₁ with
                | .error e => .error e
                | .ok (conds, args₂) =>
                    if subConds.isEmpty then .ok (conds, args₂)
                    else
                      let op := if k = "$or" then " OR " else " AND "
                      .ok (("(" ++ joinSep op subConds ++ ")") :: conds, args₂)
        | _ => .error ("value for " ++ k ++ " must be a list of conditions")
      else if k = "$not" then
        match v with
        | .obj sub =>
            match buildConds sub args with
            | .error e => .error e
            | .ok (subConds, args₁) =>
                match buildConds rest args₁ with
                | .error e => .error e
                | .ok (conds, args₂) =>
                    .ok (("NOT (" ++ wrapConds sub subConds ++ ")") :: conds, args₂)
        | _ => .error "value for $not must be a JSON object"
      else
        let args₁ := args ++ [encodePair k v]
        match buildConds rest args₁ with
        | .error e => .error e
        | .ok (conds, args₂) =>
            .ok (("metadata @> $" ++ toString args₁.length) :: conds, args₂)

def buildListConds : String → JList → List String → Except String (List String × List String)
  | _, .nil, args => .ok ([], args)
  | k, .cons item rest, args =>
      match item with
      | .obj sub =>
          match buildConds sub args with
          | .error e => .error e
          | .ok (subConds, args₁) =>
              match buildListConds k rest args₁ with
              | .error e => .error e
              | .ok (conds, args₂) =>
                  .ok (("(" ++ wrapConds sub subConds ++ ")") :: conds, args₂)
      | _ => .error ("item in " ++ k ++ " list must be a JSON object")
end

/-- buildMetadataQuery from pgvector.go: the WHERE clause together with
the accumulated parameter buffer, or a type error. -/
def buildMetadataQuery (filter : JObj) (args : List String) : Except String (String × List String) :=
  match buildConds filter args with
  | .error e => .error e
  | .ok (conds, args') => .ok (wrapConds filter conds, args')

/-- GetContentByMetadata compiles a filter starting from an empty
parameter buffer. -/
def getContentByMetadataWhere (filter : JObj) : Except String (String × List String) :=
  buildMetadataQuery filter []

/-! ## Claim C7: fixed compiler outputs -/

/-- The nested example filter of the spec,
keys in visitation order: or(a:1, and(b:2, c:3)). -/
def nestedOrAndFilter : JObj :=
  .cons "$or" (.arr (.cons (.obj (.cons "a" (.num 1) .nil))
    (.cons (.obj (.cons "$and" (.arr (.cons (.obj (.cons "b" (.num 2) .nil))
      (.cons (.obj (.cons "c" (.num 3) .nil)) .nil))) .nil)) .nil))) .nil

/-- Claim C7: the compiler's outputs on the four fixed input shapes: the
empty filter and an empty or-list give TRUE with no parameters, an
and-list holding one empty object gives doubly parenthesised TRUE with
no parameters, and the nested or/and example gives the fixed SQL with
exactly the three JSON-encoded pairs, in visitation order. -/
theorem c7_fixed_compiler_outputs :
    getContentByMetadataWhere .nil = .ok ("TRUE", []) ∧
    getContentByMetadataWhere (.cons "$or" (.arr .nil) .nil) = .ok ("TRUE", []) ∧
    getContentByMetadataWhere (.cons "$and" (.arr (.cons (.obj .nil) .nil)) .nil) =
      .ok ("((TRUE))", []) ∧
    getContentByMetadataWhere nestedOrAndFilter =
      .ok ("((metadata @> $1) OR (((metadata @> $2) AND (metadata @> $3))))",
        [encodePair "a" (.num 1), encodePair "b" (.num 2), encodePair "c" (.num 3)]) := by
  refine ⟨rfl, rfl, rfl, rfl⟩

/-! ## Claim C2: the compiled SQL is fixed tokens plus placeholders

A fragment list is the decomposition witness: the compiler's SQL output
is shown to render from fixed SQL literals and placeholder numbers only,
so no user-supplied key or value text is ever concatenated into it. -/

inductive Frag where
  | lit (s : String)
  | ph (n : Nat)
deriving Repr, DecidableEq

/-- Rendering of one fragment: a placeholder n renders as its dollar
token. -/
def Frag.render : Frag → String
  | .lit s => s
  | .ph n => "$" ++ toString n

def renderFrags : List Frag → String
  | [] => ""
  | f :: rest => f.render ++ renderFrags rest

/-- Placeholder indices of a fragment list, in emission order. -/
def phIndices : List Frag → List Nat
  | [] => []
  | .ph n :: rest => n :: phIndices rest
  | .lit _ :: rest => phIndices rest

/-- The fixed SQL tokens the compiler may emit; none derives from user
data. -/
def sqlLits : List String := ["TRUE", "(", ")", " AND ", " OR ", "NOT (", "metadata @> "]

def FragLitOk : Frag → Prop
  | .lit s => s ∈ sqlLits
  | .ph _ => True

/-- Fragment-level counterpart of strings.Join. -/
def joinFrags (sep : String) : List (List Frag) → List Frag
  | [] => []
  | [l] => l
  | l :: rest => l ++ Frag.lit sep :: joinFrags sep rest

theorem renderFrags_append (a b : List Frag) :
    renderFrags (a ++ b) = renderFrags a ++ renderFrags b := by
  induction a with
  | nil => simp [renderFrags, String.empty_append]
  | cons f rest ih => simp [renderFrags, ih, String.append_assoc]

theorem phIndices_append (a b : List Frag) :
    phIndices (a ++ b) = phIndices a ++ phIndices b := by
  induction a with
  | nil => rfl
  | cons f rest ih => cases f <;> simp [phIndices, ih]

theorem renderFrags_joinFrags (sep : String) (ls : List (List Frag)) :
    renderFrags (joinFrags sep ls) = joinSep sep (ls.map renderFrags) := by
  induction ls with
  | nil => rfl
  | cons l rest ih =>
      cases rest with
      | nil => simp [joinFrags, joinSep]
      | cons l₂ rest₂ =>
          simp only [joinFrags, joinSep, List.map_cons]
          rw [renderFrags_append]
          simp [renderFrags, Frag.render, ih, String.append_assoc]

theorem phIndices_joinFrags (sep : String) (ls : List (List Frag)) :
    phIndices (joinFrags sep ls) = (ls.map phIndices).flatten := by
  induction ls with
  | nil => rfl
  | cons l rest ih =>
      cases rest with
      | nil => simp [joinFrags]
      | cons l₂ rest₂ =>
          simp only [joinFrags, List.map_cons, List.flatten_cons]
          rw [phIndices_append]
          simp [phIndices, ih]

theorem fragLitOk_joinFrags (sep : String) (ls : List (List Frag)) (hsep : sep ∈ sqlLits)
    (h : ∀ l ∈ ls, ∀ f ∈ l, FragLitOk f) : ∀ f ∈ joinFrags sep ls, FragLitOk f := by
  induction ls with
  | nil => intro f hf; simp [joinFrags] at hf
  | cons l rest ih =>
      cases rest with
      | nil =>
          intro f hf
          simp only [joinFrags] at hf
          exact h l (by simp) f hf
      | cons l₂ rest₂ =>
          intro f hf
          simp only [joinFrags, List.mem_append, List.mem_cons] at hf
          rcases hf with hf | hf | hf
          · exact h l (by simp) f hf
          · subst hf; exact hsep
          · exact ih (fun l' hl' => h l' (by simp [hl'])) f hf

/-! Plain key/value pairs of a filter tree, in visitation order: these
are exactly the pairs that become bound parameters. -/
mutual
def plainPairs : JObj → List (String × JVal)
  | .nil => []
  | .cons k v rest =>
      if k = "$and" ∨ k = "$or" then
        (match v with
          | .arr items => plainPairsList items
          | _ => []) ++ plainPairs rest
      else if k = "$not" then
        (match v with
          | .obj sub => plainPairs sub
          | _ => []) ++ plainPairs rest
      else
        (k, v) :: plainPairs rest

def plainPairsList : JList → List (String × JVal)
  | .nil => []
  | .cons item rest =>
      (match item with
        | .obj sub => plainPairs sub
        | _ => []) ++ plainPairsList rest
end

/-- The JSON encodings of a pair list, i.e. the parameter values bound
for them. -/
def encodedPairs (l : List (String × JVal)) : List String :=
  l.map (fun p => encodePair p.1 p.2)

/-- What holds of a successful buildConds run: the parameter buffer is
extended exactly by the JSON-encoded plain pairs in visitation order,
and each collected condition renders from fixed SQL literals and
placeholders whose indices, in emission order, continue the buffer
numbering. -/
def CondsSpec (args : List String) (pp : List (String × JVal))
    (conds : List String) (args' : List String) : Prop :=
  args' = args ++ encodedPairs pp ∧
  ∃ fragss : List (List Frag),
    conds = fragss.map renderFrags ∧
    (∀ l ∈ fragss, ∀ f ∈ l, FragLitOk f) ∧
    (fragss.map phIndices).flatten = List.range' (args.length + 1) pp.length

theorem encodedPairs_append (a b : List (String × JVal)) :
    encodedPairs (a ++ b) = encodedPairs a ++ encodedPairs b := by
  simp [encodedPairs]

/-- Lifting CondsSpec through wrapConds: the final SQL string of a
recursive buildMetadataQuery call renders from fixed literals and the
same placeholder range. -/
theorem wrapConds_spec (o : JObj) (args conds args' : List String)
    (h : CondsSpec args (plainPairs o) conds args') :
    args' = args ++ encodedPairs (plainPairs o) ∧
    ∃ frags : List Frag,
      wrapConds o conds = renderFrags frags ∧
      (∀ f ∈ frags, FragLitOk f) ∧
      phIndices frags = List.range' (args.length + 1) (plainPairs o).length := by
  obtain ⟨hargs, fragss, hconds, hok, hph⟩ := h
  refine ⟨hargs, ?_⟩
  have htrue : ∀ f, f ∈ [Frag.lit "TRUE"] → FragLitOk f := by
    intro f hf
    simp at hf
    subst hf
    simp [FragLitOk, sqlLits]
  cases o with
  | nil =>
      refine ⟨[Frag.lit "TRUE"], ?_, htrue, ?_⟩
      · simp [wrapConds, renderFrags, Frag.render, String.append_empty]
      · have : plainPairs JObj.nil = [] := rfl
        simp [phIndices, this]
  | cons k v rest =>
      by_cases he : conds.isEmpty = true
      · have hcnil : conds = [] := by
          cases conds with
          | nil => rfl
          | cons a b => simp [List.isEmpty] at he
        have hfnil : fragss = [] := by
          rw [hcnil, eq_comm, List.map_eq_nil_iff] at hconds
          exact hconds
        have hlen0 : (plainPairs (JObj.cons k v rest)).length = 0 := by
          rw [hfnil] at hph
          simp at hph
          simp [← hph]
        refine ⟨[Frag.lit "TRUE"], ?_, htrue, ?_⟩
        · simp [wrapConds, hcnil, renderFrags, Frag.render, String.append_empty]
        · simp [phIndices, hlen0]
      · refine ⟨joinFrags " AND " fragss, ?_, ?_, ?_⟩
        · simp only [wrapConds, if_neg he]
          rw [renderFrags_joinFrags, hconds]
        · exact fragLitOk_joinFrags " AND " fragss (by simp [sqlLits]) hok
        · rw [phIndices_joinFrags, hph]

theorem encodedPairs_length (l : List (String × JVal)) :
    (encodedPairs l).length = l.length := by
  simp [encodedPairs]

theorem range'_glue (s m n : Nat) :
    List.range' (s + 1) m ++ List.range' (s + 1 + m) n = List.range' (s + 1) (m + n) := by
  have h := List.range'_append (s + 1) m n 1
  simpa [Nat.add_comm] using h

/-! The main induction: every successful buildConds / buildListConds run
satisfies CondsSpec. -/
mutual
theorem buildConds_spec (o : JObj) : ∀ (args conds args' : List String),
    buildConds o args = .ok (conds, args') → CondsSpec args (plainPairs o) conds args' := by
  cases o with
  | nil =>
      intro args conds args' h
      simp only [buildConds, Except.ok.injEq, Prod.mk.injEq] at h
      obtain ⟨hc, ha⟩ := h
      subst hc
      subst ha
      exact ⟨by simp [plainPairs, encodedPairs], [], by simp, by simp, by simp [plainPairs]⟩
  | cons k v rest =>
      intro args conds args' h
      unfold buildConds at h
      by_cases hop : k = "$and" ∨ k = "$or"
      · rw [if_pos hop] at h
        cases v with
        | arr items =>
            cases hbl : buildListConds k items args with
            | error e =>
                simp only [hbl] at h
                exact Except.noConfusion h
            | ok pr =>
                obtain ⟨subConds, args₁⟩ := pr
                simp only [hbl] at h
                cases hbc : buildConds rest args₁ with
                | error e =>
                    simp only [hbc] at h
                    exact Except.noConfusion h
                | ok pr₂ =>
                    obtain ⟨conds₀, args₂⟩ := pr₂
                    simp only [hbc] at h
                    obtain ⟨hargs₁, fragssL, hcondsL, hokL, hphL⟩ :=
                      buildListConds_spec items k args subConds args₁ hbl
                    obtain ⟨hargs₂, fragssR, hcondsR, hokR, hphR⟩ :=
                      buildConds_spec rest args₁ conds₀ args₂ hbc
                    have hpp : plainPairs (JObj.cons k (JVal.arr items) rest) =
                        plainPairsList items ++ plainPairs rest := by
                      rw [plainPairs.eq_def]
                      simp only [if_pos hop]
                    by_cases hse : subConds.isEmpty = true
                    · rw [if_pos hse] at h
                      simp only [Except.ok.injEq, Prod.mk.injEq] at h
                      obtain ⟨hc, ha⟩ := h
                      subst hc
                      subst ha
                      have hsc : subConds = [] := by
                        cases subConds with
                        | nil => rfl
                        | cons a b => simp [List.isEmpty] at hse
                      have hfL : fragssL = [] := by
                        rw [hsc, eq_comm, List.map_eq_nil_iff] at hcondsL
                        exact hcondsL
                      have hppl : plainPairsList items = [] := by
                        rw [hfL] at hphL
                        simp at hphL
                        exact hphL
                      have hargs1' : args₁ = args := by
                        rw [hargs₁, hppl]
                        simp [encodedPairs]
                      refine ⟨?_, fragssR, hcondsR, hokR, ?_⟩
                      · rw [hargs₂, hargs1', hpp, hppl]
                        simp
                      · rw [hpp, hppl, hphR, hargs1']
                        simp
                    · rw [if_neg hse] at h
                      simp only [Except.ok.injEq, Prod.mk.injEq] at h
                      obtain ⟨hc, ha⟩ := h
                      subst ha
                      have hopmem : (if k = "$or" then " OR " else " AND ") ∈ sqlLits := by
                        split <;> simp [sqlLits]
                      refine ⟨?_,
                        (Frag.lit "(" ::
                          (joinFrags (if k = "$or" then " OR " else " AND ") fragssL
                            ++ [Frag.lit ")"])) :: fragssR, ?_, ?_, ?_⟩
                      · rw [hargs₂, hargs₁, hpp, encodedPairs_append]
                        simp [List.append_assoc]
                      · rw [← hc]
                        simp only [List.map_cons]
                        refine congrArg₂ _ ?_ hcondsR
                        rw [renderFrags, renderFrags_append, renderFrags_joinFrags, ← hcondsL]
                        simp [renderFrags, Frag.render, String.append_empty,
                          String.append_assoc]
                      · intro l hl
                        rcases List.mem_cons.mp hl with rfl | hl
                        · intro f hf
                          rcases List.mem_cons.mp hf with rfl | hf
                          · simp [FragLitOk, sqlLits]
                          · rcases List.mem_append.mp hf with hf | hf
                            · exact fragLitOk_joinFrags _ fragssL hopmem hokL f hf
                            · simp at hf
                              subst hf
                              simp [FragLitOk, sqlLits]
                        · exact hokR l hl
                      · simp only [List.map_cons, List.flatten_cons]
                        have hhead : phIndices (Frag.lit "(" ::
                            (joinFrags (if k = "$or" then " OR " else " AND ") fragssL
                              ++ [Frag.lit ")"])) = (fragssL.map phIndices).flatten := by
                          simp [phIndices, phIndices_append, phIndices_joinFrags]
                        rw [hhead, hphL, hphR]
                        have hlen₁ : args₁.length =
                            args.length + (plainPairsList items).length := by
                          rw [hargs₁]
                          simp [encodedPairs_length]
                        rw [hlen₁, hpp]
                        rw [show args.length + (plainPairsList items).length + 1 =
                          args.length + 1 + (plainPairsList items).length by omega]
                        rw [range'_glue]
                        simp
        | str s => simp at h
        | num n => simp at h
        | boolean b => simp at h
        | null => simp at h
        | obj entries => simp at h
      · rw [if_neg hop] at h
        by_cases hnot : k = "$not"
        · rw [if_pos hnot] at h
          cases v with
          | obj sub =>
              cases hbs : buildConds sub args with
              | error e =>
                simp only [hbs] at h
                exact Except.noConfusion h
              | ok pr =>
                  obtain ⟨subConds, args₁⟩ := pr
                  simp only [hbs] at h
                  cases hbc : buildConds rest args₁ with
                  | error e =>
                    simp only [hbc] at h
                    exact Except.noConfusion h
                  | ok pr₂ =>
                      obtain ⟨conds₀, args₂⟩ := pr₂
                      simp only [hbc, Except.ok.injEq, Prod.mk.injEq] at h
                      obtain ⟨hc, ha⟩ := h
                      subst ha
                      obtain ⟨hargs₁, W, hwrender, hwok, hwph⟩ :=
                        wrapConds_spec sub args subConds args₁
                          (buildConds_spec sub args subConds args₁ hbs)
                      obtain ⟨hargs₂, fragssR, hcondsR, hokR, hphR⟩ :=
                        buildConds_spec rest args₁ conds₀ args₂ hbc
                      have hpp : plainPairs (JObj.cons k (JVal.obj sub) rest) =
                          plainPairs sub ++ plainPairs rest := by
                        rw [plainPairs.eq_def]
                        simp only [if_neg hop, if_pos hnot]
                      refine ⟨?_, (Frag.lit "NOT (" :: (W ++ [Frag.lit ")"])) :: fragssR,
                        ?_, ?_, ?_⟩
                      · rw [hargs₂, hargs₁, hpp, encodedPairs_append]
                        simp [List.append_assoc]
                      · rw [← hc]
                        simp only [List.map_cons]
                        refine congrArg₂ _ ?_ hcondsR
                        rw [renderFrags, renderFrags_append, ← hwrender]
                        simp [renderFrags, Frag.render, String.append_empty,
                          String.append_assoc]
                      · intro l hl
                        rcases List.mem_cons.mp hl with rfl | hl
                        · intro f hf
                          rcases List.mem_cons.mp hf with rfl | hf
                          · simp [FragLitOk, sqlLits]
                          · rcases List.mem_append.mp hf with hf | hf
                            · exact hwok f hf
                            · simp at hf
                              subst hf
                              simp [FragLitOk, sqlLits]
                        · exact hokR l hl
                      · simp only [List.map_cons, List.flatten_cons]
                        have hhead : phIndices (Frag.lit "NOT (" :: (W ++ [Frag.lit ")"])) =
                            phIndices W := by
                          simp [phIndices, phIndices_append]
                        rw [hhead, hwph, hphR]
                        have hlen₁ : args₁.length = args.length + (plainPairs sub).length := by
                          rw [hargs₁]
                          simp [encodedPairs_length]
                        rw [hlen₁, hpp]
                        rw [show args.length + (plainPairs sub).length + 1 =
                          args.length + 1 + (plainPairs sub).length by omega]
                        rw [range'_glue]
                        simp
          | str s => simp at h
          | num n => simp at h
          | boolean b => simp at h
          | null => simp at h
          | arr items => simp at h
        · rw [if_neg hnot] at h
          cases hbc : buildConds rest (args ++ [encodePair k v]) with
          | error e =>
                    simp only [hbc] at h
                    exact Except.noConfusion h
          | ok pr₂ =>
              obtain ⟨conds₀, args₂⟩ := pr₂
              simp only [hbc, Except.ok.injEq, Prod.mk.injEq] at h
              obtain ⟨hc, ha⟩ := h
              subst ha
              obtain ⟨hargs₂, fragssR, hcondsR, hokR, hphR⟩ :=
                buildConds_spec rest (args ++ [encodePair k v]) conds₀ args₂ hbc
              have hpp : plainPairs (JObj.cons k v rest) = (k, v) :: plainPairs rest := by
                rw [plainPairs.eq_def]
                simp only [if_neg hop, if_neg hnot]
              refine ⟨?_, [Frag.lit "metadata @> ", Frag.ph (args.length + 1)] :: fragssR,
                ?_, ?_, ?_⟩
              · rw [hargs₂, hpp]
                simp [encodedPairs, List.append_assoc]
              · rw [← hc]
                simp only [List.map_cons]
                refine congrArg₂ _ ?_ hcondsR
                have hmerge : "metadata @> " ++ "$" = "metadata @> $" := rfl
                simp only [renderFrags, Frag.render, String.append_empty,
                  List.length_append, List.length_cons, List.length_nil]
                rw [← String.append_assoc, hmerge]
              · intro l hl
                rcases List.mem_cons.mp hl with rfl | hl
                · intro f hf
                  rcases List.mem_cons.mp hf with rfl | hf
                  · simp [FragLitOk, sqlLits]
                  · simp at hf
                    subst hf
                    simp [FragLitOk]
                · exact hokR l hl
              · simp only [List.map_cons, List.flatten_cons]
                have hhead : phIndices [Frag.lit "metadata @> ", Frag.ph (args.length + 1)] =
                    [args.length + 1] := by
                  simp [phIndices]
                rw [hhead, hphR, hpp]
                have hlen₁ : (args ++ [encodePair k v]).length = args.length + 1 := by
                  simp
                rw [hlen₁, List.length_cons]
                rw [List.range'_succ]
                simp
termination_by sizeOf o

theorem buildListConds_spec (items : JList) : ∀ (k : String) (args conds args' : List String),
    buildListConds k items args = .ok (conds, args') →
    CondsSpec args (plainPairsList items) conds args' := by
  cases items with
  | nil =>
      intro k args conds args' h
      simp only [buildListConds, Except.ok.injEq, Prod.mk.injEq] at h
      obtain ⟨hc, ha⟩ := h
      subst hc
      subst ha
      exact ⟨by simp [plainPairsList, encodedPairs], [], by simp, by simp,
        by simp [plainPairsList]⟩
  | cons item rest =>
      intro k args conds args' h
      unfold buildListConds at h
      cases item with
      | obj sub =>
          cases hbs : buildConds sub args with
          | error e =>
                simp only [hbs] at h
                exact Except.noConfusion h
          | ok pr =>
              obtain ⟨subConds, args₁⟩ := pr
              simp only [hbs] at h
              cases hbl : buildListConds k rest args₁ with
              | error e =>
                simp only [hbl] at h
                exact Except.noConfusion h
              | ok pr₂ =>
                  obtain ⟨conds₀, args₂⟩ := pr₂
                  simp only [hbl, Except.ok.injEq, Prod.mk.injEq] at h
                  obtain ⟨hc, ha⟩ := h
                  subst ha
                  obtain ⟨hargs₁, W, hwrender, hwok, hwph⟩ :=
                    wrapConds_spec sub args subConds args₁
                      (buildConds_spec sub args subConds args₁ hbs)
                  obtain ⟨hargs₂, fragssR, hcondsR, hokR, hphR⟩ :=
                    buildListConds_spec rest k args₁ conds₀ args₂ hbl
                  have hpp : plainPairsList (JList.cons (JVal.obj sub) rest) =
                      plainPairs sub ++ plainPairsList rest := by
                    rw [plainPairsList.eq_def]
                  refine ⟨?_, (Frag.lit "(" :: (W ++ [Frag.lit ")"])) :: fragssR, ?_, ?_, ?_⟩
                  · rw [hargs₂, hargs₁, hpp, encodedPairs_append]
                    simp [List.append_assoc]
                  · rw [← hc]
                    simp only [List.map_cons]
                    refine congrArg₂ _ ?_ hcondsR
                    rw [renderFrags, renderFrags_append, ← hwrender]
                    simp [renderFrags, Frag.render, String.append_empty, String.append_assoc]
                  · intro l hl
                    rcases List.mem_cons.mp hl with rfl | hl
                    · intro f hf
                      rcases List.mem_cons.mp hf with rfl | hf
                      · simp [FragLitOk, sqlLits]
                      · rcases List.mem_append.mp hf with hf | hf
                        · exact hwok f hf
                        · simp at hf
                          subst hf
                          simp [FragLitOk, sqlLits]
                    · exact hokR l hl
                  · simp only [List.map_cons, List.flatten_cons]
                    have hhead : phIndices (Frag.lit "(" :: (W ++ [Frag.lit ")"])) =
                        phIndices W := by
                      simp [phIndices, phIndices_append]
                    rw [hhead, hwph, hphR]
                    have hlen₁ : args₁.length = args.length + (plainPairs sub).length := by
                      rw [hargs₁]
                      simp [encodedPairs_length]
                    rw [hlen₁, hpp]
                    rw [show args.length + (plainPairs sub).length + 1 =
                      args.length + 1 + (plainPairs sub).length by omega]
                    rw [range'_glue]
                    simp
      | str s => simp at h
      | num n => simp at h
      | boolean b => simp at h
      | null => simp at h
      | arr l => simp at h
termination_by sizeOf items
end

/-- Claim C2: for every filter tree accepted by the compiler, the
emitted SQL renders from fixed SQL tokens and placeholder tokens only
(so no user-supplied key or value text is concatenated into it); each
plain pair is bound exactly as a JSON-encoded parameter appended to the
buffer in visitation order; the placeholder indices, in emission order,
are precisely the positions of the appended parameters; and the largest
placeholder index equals the number of accumulated parameters. -/
theorem c2_compiler_parameterizes_all_user_data :
    ∀ (filter : JObj) (args : List String) (sql : String) (args' : List String),
    buildMetadataQuery filter args = .ok (sql, args') →
    ∃ frags : List Frag,
      sql = renderFrags frags ∧
      (∀ f ∈ frags, FragLitOk f) ∧
      args' = args ++ encodedPairs (plainPairs filter) ∧
      phIndices frags = List.range' (args.length + 1) (plainPairs filter).length ∧
      (∀ n ∈ phIndices frags, args.length < n ∧ n ≤ args'.length) ∧
      (plainPairs filter ≠ [] → args'.length ∈ phIndices frags) := by
  intro filter args sql args' h
  unfold buildMetadataQuery at h
  cases hbc : buildConds filter args with
  | error e =>
      simp only [hbc] at h
      exact Except.noConfusion h
  | ok pr =>
      obtain ⟨conds, argsF⟩ := pr
      simp only [hbc, Except.ok.injEq, Prod.mk.injEq] at h
      obtain ⟨hsql, ha⟩ := h
      subst ha
      obtain ⟨hargs, frags, hrender, hok, hph⟩ :=
        wrapConds_spec filter args conds argsF (buildConds_spec filter args conds argsF hbc)
      have hlen : argsF.length = args.length + (plainPairs filter).length := by
        rw [hargs]
        simp [encodedPairs_length]
      refine ⟨frags, ?_, hok, hargs, hph, ?_, ?_⟩
      · rw [← hsql, hrender]
      · intro n hn
        rw [hph, List.mem_range'_1] at hn
        omega
      · intro hne
        rw [hph, List.mem_range'_1]
        have hpos : 0 < (plainPairs filter).length := List.length_pos.mpr hne
        omega

/-- Witness for C2 at the nested or/and example: the fixed SQL really is
a rendering of fixed literals and placeholders. -/
theorem c2_compiler_parameterizes_all_user_data_witness :
    ∃ frags : List Frag,
      "((metadata @> $1) OR (((metadata @> $2) AND (metadata @> $3))))" = renderFrags frags ∧
      (∀ f ∈ frags, FragLitOk f) := by
  obtain ⟨frags, h1, h2, _⟩ :=
    c2_compiler_parameterizes_all_user_data nestedOrAndFilter []
      "((metadata @> $1) OR (((metadata @> $2) AND (metadata @> $3))))"
      [encodePair "a" (JVal.num 1), encodePair "b" (JVal.num 2), encodePair "c" (JVal.num 3)]
      (by rfl)
  exact ⟨frags, h1, h2⟩

/-! ## The research loop (Run / reflectPhase, part_004)

LLM calls and phase outcomes are an oracle indexed by iteration number;
the loop itself — the iteration counter, the OnStateUpdate snapshot
points, the break/abort conditions, the reflect decision — is embedded
directly. -/

/-- ASCII upper-casing of one character (the STOP token is ASCII, so
this agrees with Go strings.ToUpper on every relevant input). -/
def upperChar (c : Char) : Char :=
  if 'a' ≤ c ∧ c ≤ 'z' then Char.ofNat (c.toNat - 32) else c

def toUpperStr (s : String) : String :=
  ⟨s.data.map upperChar⟩

/-- strings.Contains(strings.ToUpper(content), "STOP"). -/
def containsStop (content : String) : Bool :=
  decide ("STOP".data <:+: (toUpperStr content).data)

/-- reflectPhase from part_004: returns false (stop) immediately when
the iteration cap is reached, otherwise consults the LLM response: an
error propagates, a response containing STOP (case-insensitively) stops,
anything else continues with the response as the new focus. -/
def reflectPhase (iteration maxIterations : Nat) (resp : Except String String) :
    Except String (Bool × String) :=
  if iteration ≥ maxIterations then .ok (false, "")
  else
    match resp with
    | .error e => .error e
    | .ok content =>
        if containsStop content then .ok (false, "")
        else .ok (true, content)

/-- Per-iteration oracle: outcome of the plan phase (after its retries),
of the filter phase (after its retries), of acquire and index, and the
raw reflection LLM response. -/
structure IterOracle where
  plan : Except String (List String)
  filterRes : Except String Unit
  acquireRes : Except String Unit
  reflectResp : Except String String

/-- One observable iteration: its iteration number and, when the
iteration reached the reflect phase, the reflection response it used. -/
structure IterEv where
  iter : Nat
  reflect : Option (Except String String)
deriving Repr

/-- The loop of Run: while Iteration < MaxIterations, increment, emit an
OnStateUpdate snapshot, run the phases (plan failure aborts; zero
queries breaks; filter/acquire failure aborts), emit the post-acquire
snapshot, then reflect (error aborts, false breaks).  Returns the list
of snapshot Iteration values, the iteration events and the loop result. -/
def runLoop (script : Nat → IterOracle) (maxIterations : Nat) (i : Nat) :
    List Nat × List IterEv × Except String Unit :=
  if i < maxIterations then
    match (script (i + 1)).plan with
    | .error e => ([i + 1], [⟨i + 1, none⟩], .error ("planning failed: " ++ e))
    | .ok queries =>
        if queries.isEmpty then ([i + 1], [⟨i + 1, none⟩], .ok ())
        else
          match (script (i + 1)).filterRes with
          | .error e => ([i + 1], [⟨i + 1, none⟩], .error ("filtering failed: " ++ e))
          | .ok _ =>
              match (script (i + 1)).acquireRes with
              | .error e => ([i + 1], [⟨i + 1, none⟩], .error ("acquire/index failed: " ++ e))
              | .ok _ =>
                  match reflectPhase (i + 1) maxIterations (script (i + 1)).reflectResp with
                  | .error e =>
                      ([i + 1, i + 1], [⟨i + 1, some (script (i + 1)).reflectResp⟩],
                        .error ("reflection failed: " ++ e))
                  | .ok (shouldContinue, _) =>
                      if shouldContinue then
                        ((i + 1) :: (i + 1) :: (runLoop script maxIterations (i + 1)).1,
                          ⟨i + 1, some (script (i + 1)).reflectResp⟩ ::
                            (runLoop script maxIterations (i + 1)).2.1,
                          (runLoop script maxIterations (i + 1)).2.2)
                      else
                        ([i + 1, i + 1], [⟨i + 1, some (script (i + 1)).reflectResp⟩], .ok ())
  else ([], [], .ok ())
termination_by maxIterations - i
decreasing_by all_goals omega

/-- Run from part_004: a snapshot is emitted before the loop (with the
initial Iteration value 0 set by NewEngine), then the loop runs. -/
def runResearch (script : Nat → IterOracle) (maxIterations : Nat) :
    List Nat × List IterEv × Except String Unit :=
  let r := runLoop script maxIterations 0
  (0 :: r.1, r.2.1, r.2.2)


theorem decomp_singleton {α : Type} (x ev : α) (pre post : List α)
    (h : [x] = pre ++ ev :: post) : post = [] := by
  have hl := congrArg List.length h
  simp at hl
  have hp : post.length = 0 := by omega
  exact List.length_eq_zero.mp hp

theorem reflect_true_not_exit (it m : Nat) (resp : Except String String) (c : String)
    (h : reflectPhase it m resp = .ok (true, c)) :
    ¬ (m ≤ it ∨ ∃ s, resp = .ok s ∧ containsStop s = true) := by
  intro hcond
  unfold reflectPhase at h
  by_cases hge : it ≥ m
  · rw [if_pos hge] at h
    simp at h
  · rw [if_neg hge] at h
    rcases hcond with hge' | ⟨s, hs, hstop⟩
    · omega
    · subst hs
      simp [hstop] at h

theorem runLoop_spec (script : Nat → IterOracle) (m i : Nat) :
    (∀ n ∈ (runLoop script m i).1, n ≤ m) ∧
    (∀ ev ∈ (runLoop script m i).2.1, ev.iter ≤ m) ∧
    (∀ pre ev post, (runLoop script m i).2.1 = pre ++ ev :: post →
      ∀ resp, ev.reflect = some resp →
        (m ≤ ev.iter ∨ ∃ c, resp = .ok c ∧ containsStop c = true) → post = []) := by
  by_cases h : i < m
  · rw [runLoop.eq_def, if_pos h]
    cases hplan : (script (i + 1)).plan with
    | error e =>
        simp only [hplan]
        refine ⟨?_, ?_, ?_⟩
        · intro n hn
          simp at hn
          omega
        · intro ev hev
          simp at hev
          subst hev
          simpa using h
        · intro pre ev post hdec resp hresp hcond
          exact decomp_singleton _ ev pre post hdec
    | ok queries =>
        simp only [hplan]
        by_cases hq : queries.isEmpty = true
        · rw [if_pos hq]
          refine ⟨?_, ?_, ?_⟩
          · intro n hn
            simp at hn
            omega
          · intro ev hev
            simp at hev
            subst hev
            simpa using h
          · intro pre ev post hdec resp hresp hcond
            exact decomp_singleton _ ev pre post hdec
        · rw [if_neg hq]
          cases hfil : (script (i + 1)).filterRes with
          | error e =>
              simp only [hfil]
              refine ⟨?_, ?_, ?_⟩
              · intro n hn
                simp at hn
                omega
              · intro ev hev
                simp at hev
                subst hev
                simpa using h
              · intro pre ev post hdec resp hresp hcond
                exact decomp_singleton _ ev pre post hdec
          | ok u =>
              simp only [hfil]
              cases hacq : (script (i + 1)).acquireRes with
              | error e =>
                  simp only [hacq]
                  refine ⟨?_, ?_, ?_⟩
                  · intro n hn
                    simp at hn
                    omega
                  · intro ev hev
                    simp at hev
                    subst hev
                    simpa using h
                  · intro pre ev post hdec resp hresp hcond
                    exact decomp_singleton _ ev pre post hdec
              | ok u₂ =>
                  simp only [hacq]
                  cases hrefl : reflectPhase (i + 1) m (script (i + 1)).reflectResp with
                  | error e =>
                      simp only [hrefl]
                      refine ⟨?_, ?_, ?_⟩
                      · intro n hn
                        simp at hn
                        rcases hn with rfl | rfl <;> omega
                      · intro ev hev
                        simp at hev
                        subst hev
                        simpa using h
                      · intro pre ev post hdec resp hresp hcond
                        exact decomp_singleton _ ev pre post hdec
                  | ok pr =>
                      obtain ⟨sc, c⟩ := pr
                      simp only [hrefl]
                      cases sc with
                      | false =>
                          simp only [Bool.false_eq_true, if_false]
                          refine ⟨?_, ?_, ?_⟩
                          · intro n hn
                            simp at hn
                            rcases hn with rfl | rfl <;> omega
                          · intro ev hev
                            simp at hev
                            subst hev
                            simpa using h
                          · intro pre ev post hdec resp hresp hcond
                            exact decomp_singleton _ ev pre post hdec
                      | true =>
                          simp only [if_true]
                          obtain ⟨ih1, ih2, ih3⟩ := runLoop_spec script m (i + 1)
                          refine ⟨?_, ?_, ?_⟩
                          · intro n hn
                            simp only [List.mem_cons] at hn
                            rcases hn with rfl | rfl | hn
                            · omega
                            · omega
                            · exact ih1 n hn
                          · intro ev hev
                            simp only [List.mem_cons] at hev
                            rcases hev with rfl | hev
                            · simpa using h
                            · exact ih2 ev hev
                          · intro pre ev post hdec resp hresp hcond
                            cases pre with
                            | nil =>
                                simp only [List.nil_append, List.cons.injEq] at hdec
                                obtain ⟨hev, hpost⟩ := hdec
                                subst hev
                                exfalso
                                have hnx := reflect_true_not_exit (i + 1) m
                                  (script (i + 1)).reflectResp c hrefl
                                simp only [IterEv.reflect] at hresp
                                have hr : resp = (script (i + 1)).reflectResp := by
                                  injection hresp.symm
                                subst hr
                                apply hnx
                                simpa using hcond
                            | cons a pre' =>
                                simp only [List.cons_append, List.cons.injEq] at hdec
                                obtain ⟨_, hrec⟩ := hdec
                                exact ih3 pre' ev post hrec resp hresp hcond
  · rw [runLoop.eq_def, if_neg h]
    refine ⟨?_, ?_, ?_⟩
    · intro n hn
      simp at hn
    · intro ev hev
      simp at hev
    · intro pre ev post hdec resp hresp hcond
      simp at hdec
termination_by m - i
decreasing_by omega

/-- Claim C4: for every run, Iteration never exceeds MaxIterations at
any observable point — every OnStateUpdate snapshot value and every
iteration event is at most the cap — and the loop exits at the reflect
phase whenever the cap is reached or the reflection response contains
STOP (case-insensitive substring): such an iteration is always the last
one, and reflectPhase itself returns the stop decision in both cases. -/
theorem c4_iteration_cap_and_reflect_exit :
    ∀ (script : Nat → IterOracle) (maxIterations : Nat),
    (∀ n ∈ (runResearch script maxIterations).1, n ≤ maxIterations) ∧
    (∀ ev ∈ (runResearch script maxIterations).2.1, ev.iter ≤ maxIterations) ∧
    (∀ pre ev post, (runResearch script maxIterations).2.1 = pre ++ ev :: post →
      ∀ resp, ev.reflect = some resp →
        (maxIterations ≤ ev.iter ∨ ∃ c, resp = .ok c ∧ containsStop c = true) →
        post = []) ∧
    (∀ it resp, maxIterations ≤ it →
      reflectPhase it maxIterations resp = .ok (false, "")) ∧
    (∀ it c, containsStop c = true →
      reflectPhase it maxIterations (.ok c) = .ok (false, "")) := by
  intro script maxIterations
  obtain ⟨h1, h2, h3⟩ := runLoop_spec script maxIterations 0
  refine ⟨?_, h2, h3, ?_, ?_⟩
  · intro n hn
    simp only [runResearch, List.mem_cons] at hn
    rcases hn with rfl | hn
    · omega
    · exact h1 n hn
  · intro it resp hit
    unfold reflectPhase
    rw [if_pos hit]
  · intro it c hstop
    unfold reflectPhase
    by_cases hit : it ≥ maxIterations
    · rw [if_pos hit]
    · rw [if_neg hit]
      simp [hstop]

/-- A demo script whose reflection always answers stop. -/
def stopScript : Nat → IterOracle :=
  fun _ => ⟨.ok ["q1", "q2", "q3"], .ok (), .ok (), .ok "STOP: the topic is covered"⟩

/-- Witness for C4: with MaxIterations = 5, the initial snapshot obeys
the cap, the cap case of reflectPhase stops, and a response containing
the token stops. -/
theorem c4_iteration_cap_and_reflect_exit_witness :
    (0 : Nat) ≤ 5 ∧
    reflectPhase 5 5 (.ok "CONTINUE") = .ok (false, "") ∧
    reflectPhase 1 5 (.ok "STOP: the topic is covered") = .ok (false, "") := by
  refine ⟨?_, ?_, ?_⟩
  · exact (c4_iteration_cap_and_reflect_exit stopScript 5).1 0 (by simp [runResearch])
  · exact (c4_iteration_cap_and_reflect_exit stopScript 5).2.2.2.1 5 (.ok "CONTINUE") (by omega)
  · exact (c4_iteration_cap_and_reflect_exit stopScript 5).2.2.2.2 1
      "STOP: the topic is covered" (by decide)

/-! ## Acquire & Index (acquireAndIndexPhase, part_004)

Each retained candidate is processed by a task consisting of two atomic
blocks, exactly the mutex-protected regions of the source: the claim
check-and-set on ProcessedURLs, and the AccumulatedFacts/IndexedItems
append.  The work between them (scrape, split, embed, insert) touches no
shared state that the claims speak about, so a whole execution is a
schedule: a list of task indices, each occurrence running the task's
next atomic block. -/

/-- The text acquired for one candidate: scrape when the URL is
non-empty, fall back to the snippet on scrape failure or empty text. -/
def acquireText (scrape : String → Except String String) (item : SearchResult) : String :=
  let fullText :=
    if item.url ≠ "" then
      match scrape item.url with
      | .ok t => t
      | .error _ => item.snippet
    else ""
  if fullText = "" then item.snippet else fullText

/-- The shared research state the acquisition phase mutates: the claimed
URLs of ProcessedURLs (its true keys, in claim order), AccumulatedFacts
and IndexedItems. -/
structure AcqState where
  processed : List String
  facts : List String
  indexed : List SearchResult
deriving Repr, DecidableEq

/-- Program counter of one acquisition task. -/
inductive TaskPC where
  | ready
  | claimedPC
  | doneClaimed
  | doneSkipped
deriving Repr, DecidableEq

def isClaimedLike : TaskPC → Bool
  | .claimedPC => true
  | .doneClaimed => true
  | _ => false

def isDoneClaimed : TaskPC → Bool
  | .doneClaimed => true
  | _ => false

def isDone : TaskPC → Bool
  | .doneClaimed => true
  | .doneSkipped => true
  | _ => false

/-- How many tasks have successfully claimed the URL u. -/
def claimCount (items : List SearchResult) (pcs : List TaskPC) (u : String) : Nat :=
  (pcs.zip items).countP (fun x => isClaimedLike x.1 && x.2.url == u)

/-- One atomic step of task t: a ready task runs the claim block (the
mutex-protected ProcessedURLs check-and-set, returning immediately when
the URL is already claimed); a claimed task runs the append block (the
mutex-protected AccumulatedFacts and IndexedItems appends).  Done tasks
and out-of-range indices do nothing. -/
def stepOne (scrape : String → Except String String) (items : List SearchResult)
    (s : List TaskPC × AcqState) (t : Nat) : List TaskPC × AcqState :=
  match s.1[t]?, items[t]? with
  | some pc, some item =>
      match pc with
      | .ready =>
          if s.2.processed.contains item.url then
            (s.1.set t .doneSkipped, s.2)
          else
            (s.1.set t .claimedPC, { s.2 with processed := s.2.processed ++ [item.url] })
      | .claimedPC =>
          (s.1.set t .doneClaimed,
            { s.2 with
                facts := s.2.facts ++ [mkSummary item (acquireText scrape item)],
                indexed := s.2.indexed ++ [item] })
      | .doneClaimed => s
      | .doneSkipped => s
  | _, _ => s

/-- A whole phase execution under a schedule. -/
def runSched (scrape : String → Except String String) (items : List SearchResult)
    (s₀ : List TaskPC × AcqState) (sched : List Nat) : List TaskPC × AcqState :=
  sched.foldl (stepOne scrape items) s₀

/-- The execution invariant of the acquisition phase, relative to the
state `base` at phase entry. -/
structure AcqInv (items : List SearchResult) (base : AcqState)
    (pcs : List TaskPC) (st : AcqState) : Prop where
  lenEq : pcs.length = items.length
  grow : base.processed <+: st.processed
  nodup : st.processed.Nodup
  claimedMem : ∀ (t : Nat) (pc : TaskPC) (item : SearchResult),
      pcs[t]? = some pc → items[t]? = some item →
      isClaimedLike pc = true → item.url ∈ st.processed
  atMostOnce : ∀ u, claimCount items pcs u ≤ 1
  procCount : st.processed.length = base.processed.length + pcs.countP isClaimedLike
  idxCount : st.indexed.length = base.indexed.length + pcs.countP isDoneClaimed
  factsCount : st.facts.length = base.facts.length + pcs.countP isDoneClaimed

theorem set_surgery {α : Type} (l : List α) (t : Nat) (a b : α) (h : l[t]? = some a) :
    l = l.take t ++ a :: l.drop (t + 1) ∧
    l.set t b = l.take t ++ b :: l.drop (t + 1) ∧
    (l.take t).length = t := by
  obtain ⟨hlt, hget⟩ := List.getElem?_eq_some.mp h
  refine ⟨?_, ?_, ?_⟩
  · conv_lhs => rw [← List.take_append_drop t l]
    rw [List.drop_eq_getElem_cons hlt, hget]
  · rw [List.set_eq_take_append_cons_drop, if_pos hlt]
  · simp [List.length_take]
    omega

theorem zip_decomp (pcs : List TaskPC) (items : List SearchResult) (t : Nat)
    (pc : TaskPC) (item : SearchResult) (b : TaskPC)
    (hpc : pcs[t]? = some pc) (hit : items[t]? = some item) :
    pcs.zip items =
      (pcs.take t).zip (items.take t)
        ++ (pc, item) :: ((pcs.drop (t + 1)).zip (items.drop (t + 1))) ∧
    (pcs.set t b).zip items =
      (pcs.take t).zip (items.take t)
        ++ (b, item) :: ((pcs.drop (t + 1)).zip (items.drop (t + 1))) := by
  obtain ⟨hp1, hp2, hp3⟩ := set_surgery pcs t pc b hpc
  obtain ⟨hi1, _, hi3⟩ := set_surgery items t item item hit
  have hlen' : (pcs.take t).length = (items.take t).length := by rw [hp3, hi3]
  constructor
  · conv_lhs => rw [hp1, hi1]
    rw [List.zip_append hlen']
    rfl
  · rw [hp2]
    conv_lhs => rw [hi1]
    rw [List.zip_append hlen']
    rfl

theorem claimCount_pos (items : List SearchResult) (pcs : List TaskPC) (u : String)
    (h : 0 < claimCount items pcs u) :
    ∃ (t : Nat) (pc : TaskPC) (item : SearchResult),
      pcs[t]? = some pc ∧ items[t]? = some item ∧
      isClaimedLike pc = true ∧ item.url = u := by
  unfold claimCount at h
  obtain ⟨x, hx, hpx⟩ := List.countP_pos.mp h
  obtain ⟨n, hn, hget⟩ := List.mem_iff_getElem.mp hx
  have hn1 : n < pcs.length := by
    have := List.length_zip pcs items
    omega
  have hn2 : n < items.length := by
    have := List.length_zip pcs items
    omega
  have hz : (pcs.zip items)[n] = (pcs[n], items[n]) := List.getElem_zip
  rw [hz] at hget
  refine ⟨n, x.1, x.2, ?_, ?_, ?_, ?_⟩
  · rw [List.getElem?_eq_some]
    exact ⟨hn1, by rw [← hget]⟩
  · rw [List.getElem?_eq_some]
    exact ⟨hn2, by rw [← hget]⟩
  · simp at hpx
    exact hpx.1
  · simp at hpx
    exact hpx.2

theorem countP_set_change (pcs : List TaskPC) (t : Nat) (a b : TaskPC) (p : TaskPC → Bool)
    (hpc : pcs[t]? = some a) :
    (pcs.set t b).countP p + (if p a then 1 else 0) =
      pcs.countP p + (if p b then 1 else 0) := by
  obtain ⟨h1, h2, _⟩ := set_surgery pcs t a b hpc
  conv_lhs => rw [h2]
  conv_rhs => rw [h1]
  simp only [List.countP_append, List.countP_cons]
  split_ifs <;> omega

theorem claimCount_set_change (items : List SearchResult) (pcs : List TaskPC) (t : Nat)
    (a b : TaskPC) (item : SearchResult) (u : String)
    (hpc : pcs[t]? = some a) (hit : items[t]? = some item) :
    claimCount items (pcs.set t b) u + (if isClaimedLike a && item.url == u then 1 else 0) =
      claimCount items pcs u + (if isClaimedLike b && item.url == u then 1 else 0) := by
  obtain ⟨hz1, hz2⟩ := zip_decomp pcs items t a item b hpc hit
  unfold claimCount
  rw [hz2]
  conv_rhs => rw [hz1]
  simp only [List.countP_append, List.countP_cons]
  split_ifs <;> omega

/-- One scheduler step preserves the acquisition invariant. -/
theorem stepOne_inv (scrape : String → Except String String) (items : List SearchResult)
    (base : AcqState) (pcs : List TaskPC) (st : AcqState) (t : Nat)
    (h : AcqInv items base pcs st) :
    ∀ pcs' st', stepOne scrape items (pcs, st) t = (pcs', st') →
    AcqInv items base pcs' st' := by
  intro pcs' st' heq
  cases hpc : pcs[t]? with
  | none =>
      simp only [stepOne, hpc] at heq
      injection heq with h1 h2
      subst h1
      subst h2
      exact h
  | some pc =>
      cases hit : items[t]? with
      | none =>
          simp only [stepOne, hpc, hit] at heq
          cases pc <;> (injection heq with h1 h2; subst h1; subst h2; exact h)
      | some item =>
          obtain ⟨hlt, hgetel⟩ := List.getElem?_eq_some.mp hpc
          cases pc with
          | doneClaimed =>
              simp only [stepOne, hpc, hit] at heq
              injection heq with h1 h2
              subst h1
              subst h2
              exact h
          | doneSkipped =>
              simp only [stepOne, hpc, hit] at heq
              injection heq with h1 h2
              subst h1
              subst h2
              exact h
          | ready =>
              simp only [stepOne, hpc, hit] at heq
              by_cases hcon : st.processed.contains item.url = true
              · rw [if_pos hcon] at heq
                injection heq with h1 h2
                subst h1
                subst h2
                refine ⟨?_, h.grow, h.nodup, ?_, ?_, ?_, ?_, ?_⟩
                · simp [List.length_set, h.lenEq]
                · intro t' pc' item' hpc' hit' hcl
                  rw [List.getElem?_set] at hpc'
                  by_cases het : t = t'
                  · rw [if_pos het, if_pos (het ▸ hlt)] at hpc'
                    injection hpc' with hpc''
                    rw [← hpc''] at hcl
                    simp [isClaimedLike] at hcl
                  · rw [if_neg het] at hpc'
                    exact h.claimedMem t' pc' item' hpc' hit' hcl
                · intro u
                  have hch := claimCount_set_change items pcs t .ready .doneSkipped item u hpc hit
                  simp [isClaimedLike] at hch
                  have := h.atMostOnce u
                  omega
                · dsimp only
                  have hch := countP_set_change pcs t .ready .doneSkipped isClaimedLike hpc
                  simp [isClaimedLike] at hch
                  have := h.procCount
                  omega
                · dsimp only
                  have hch := countP_set_change pcs t .ready .doneSkipped isDoneClaimed hpc
                  simp [isDoneClaimed] at hch
                  have := h.idxCount
                  omega
                · dsimp only
                  have hch := countP_set_change pcs t .ready .doneSkipped isDoneClaimed hpc
                  simp [isDoneClaimed] at hch
                  have := h.factsCount
                  omega
              · rw [if_neg hcon] at heq
                injection heq with h1 h2
                subst h1
                subst h2
                have hnmem : item.url ∉ st.processed := by
                  intro hm
                  exact hcon (List.elem_iff.mpr hm)
                refine ⟨?_, ?_, ?_, ?_, ?_, ?_, ?_, ?_⟩
                · simp [List.length_set, h.lenEq]
                · exact h.grow.trans (List.prefix_append _ _)
                · rw [List.nodup_append]
                  refine ⟨h.nodup, List.nodup_singleton _, ?_⟩
                  intro x hx hx'
                  rw [List.mem_singleton] at hx'
                  subst hx'
                  exact hnmem hx
                · intro t' pc' item' hpc' hit' hcl
                  rw [List.getElem?_set] at hpc'
                  by_cases het : t = t'
                  · rw [if_pos het, if_pos (het ▸ hlt)] at hpc'
                    have hsame : items[t']? = some item := het ▸ hit
                    rw [hit'] at hsame
                    injection hsame with hsame'
                    rw [hsame']
                    exact List.mem_append_right _ (List.mem_singleton_self _)
                  · rw [if_neg het] at hpc'
                    exact List.mem_append_left _
                      (h.claimedMem t' pc' item' hpc' hit' hcl)
                · intro u
                  have hch := claimCount_set_change items pcs t .ready .claimedPC item u hpc hit
                  simp only [isClaimedLike, Bool.false_and, Bool.true_and] at hch
                  by_cases hu : item.url = u
                  · have hzero : claimCount items pcs u = 0 := by
                      by_contra hpos
                      obtain ⟨t₂, pc₂, item₂, hpc₂, hit₂, hcl₂, hu₂⟩ :=
                        claimCount_pos items pcs u (Nat.pos_of_ne_zero hpos)
                      have hm := h.claimedMem t₂ pc₂ item₂ hpc₂ hit₂ hcl₂
                      rw [hu₂, ← hu] at hm
                      exact hnmem hm
                    have hb : (item.url == u) = true := by simp [hu]
                    rw [hb] at hch
                    simp at hch
                    omega
                  · have hb : (item.url == u) = false := by simp [hu]
                    rw [hb] at hch
                    simp at hch
                    have := h.atMostOnce u
                    omega
                · dsimp only
                  have hch := countP_set_change pcs t .ready .claimedPC isClaimedLike hpc
                  simp [isClaimedLike] at hch
                  have := h.procCount
                  simp only [List.length_append, List.length_singleton]
                  omega
                · dsimp only
                  have hch := countP_set_change pcs t .ready .claimedPC isDoneClaimed hpc
                  simp [isDoneClaimed] at hch
                  have := h.idxCount
                  omega
                · dsimp only
                  have hch := countP_set_change pcs t .ready .claimedPC isDoneClaimed hpc
                  simp [isDoneClaimed] at hch
                  have := h.factsCount
                  omega
          | claimedPC =>
              simp only [stepOne, hpc, hit] at heq
              injection heq with h1 h2
              subst h1
              subst h2
              refine ⟨?_, h.grow, h.nodup, ?_, ?_, ?_, ?_, ?_⟩
              · simp [List.length_set, h.lenEq]
              · intro t' pc' item' hpc' hit' hcl
                rw [List.getElem?_set] at hpc'
                by_cases het : t = t'
                · rw [if_pos het, if_pos (het ▸ hlt)] at hpc'
                  have hsame : items[t']? = some item := het ▸ hit
                  rw [hit'] at hsame
                  injection hsame with hsame'
                  rw [hsame']
                  exact h.claimedMem t .claimedPC item hpc hit (by simp [isClaimedLike])
                · rw [if_neg het] at hpc'
                  exact h.claimedMem t' pc' item' hpc' hit' hcl
              · intro u
                have hch := claimCount_set_change items pcs t .claimedPC .doneClaimed item u hpc hit
                simp only [isClaimedLike, Bool.true_and] at hch
                have := h.atMostOnce u
                omega
              · dsimp only
                have hch := countP_set_change pcs t .claimedPC .doneClaimed isClaimedLike hpc
                simp [isClaimedLike] at hch
                have := h.procCount
                omega
              · dsimp only
                have hch := countP_set_change pcs t .claimedPC .doneClaimed isDoneClaimed hpc
                simp [isDoneClaimed] at hch
                have := h.idxCount
                simp only [List.length_append, List.length_singleton]
                omega
              · dsimp only
                have hch := countP_set_change pcs t .claimedPC .doneClaimed isDoneClaimed hpc
                simp [isDoneClaimed] at hch
                have := h.factsCount
                simp only [List.length_append, List.length_singleton]
                omega

/-- A whole schedule preserves the acquisition invariant. -/
theorem runSched_inv (scrape : String → Except String String) (items : List SearchResult)
    (base : AcqState) (sched : List Nat) :
    ∀ (pcs : List TaskPC) (st : AcqState), AcqInv items base pcs st →
    AcqInv items base (runSched scrape items (pcs, st) sched).1
      (runSched scrape items (pcs, st) sched).2 := by
  induction sched with
  | nil =>
      intro pcs st h
      simpa [runSched] using h
  | cons a rest ih =>
      intro pcs st h
      have h₁ := stepOne_inv scrape items base pcs st a h
        (stepOne scrape items (pcs, st) a).1 (stepOne scrape items (pcs, st) a).2 rfl
      have h₂ := ih (stepOne scrape items (pcs, st) a).1 (stepOne scrape items (pcs, st) a).2 h₁
      simpa [runSched, List.foldl_cons] using h₂

/-- At phase entry, all tasks ready and the state untouched: the
invariant holds. -/
theorem acqInv_init (items : List SearchResult) (base : AcqState)
    (hnd : base.processed.Nodup) :
    AcqInv items base (List.replicate items.length .ready) base := by
  have hrep : ∀ pc ∈ List.replicate items.length TaskPC.ready, pc = TaskPC.ready :=
    fun pc hm => List.eq_of_mem_replicate hm
  refine ⟨by simp, List.prefix_rfl, hnd, ?_, ?_, ?_, ?_, ?_⟩
  · intro t pc item hpc hit hcl
    obtain ⟨hlt, hg⟩ := List.getElem?_eq_some.mp hpc
    rw [List.getElem_replicate] at hg
    rw [← hg] at hcl
    simp [isClaimedLike] at hcl
  · intro u
    have h0 : claimCount items (List.replicate items.length .ready) u = 0 := by
      unfold claimCount
      rw [List.countP_eq_zero]
      intro x hx
      have hx1 := (List.of_mem_zip hx).1
      rw [hrep x.1 hx1]
      simp [isClaimedLike]
    omega
  · have h0 : (List.replicate items.length TaskPC.ready).countP isClaimedLike = 0 := by
      rw [List.countP_eq_zero]
      intro pc hm
      rw [hrep pc hm]
      simp [isClaimedLike]
    omega
  · have h0 : (List.replicate items.length TaskPC.ready).countP isDoneClaimed = 0 := by
      rw [List.countP_eq_zero]
      intro pc hm
      rw [hrep pc hm]
      simp [isDoneClaimed]
    omega
  · have h0 : (List.replicate items.length TaskPC.ready).countP isDoneClaimed = 0 := by
      rw [List.countP_eq_zero]
      intro pc hm
      rw [hrep pc hm]
      simp [isDoneClaimed]
    omega

/-- Claim C5: for every schedule of the acquisition tasks, ProcessedURLs
only grows (the entry state is a prefix of the final state, so no key is
ever removed or reset), its keys stay distinct, every URL is claimed by
at most one task, and when all tasks have completed, the growth of
IndexedItems equals the growth of ProcessedURLs — started from the empty
state of a fresh run, IndexedItems has exactly one entry per
successfully claimed URL. -/
theorem c5_claims_unique_and_counted :
    ∀ (scrape : String → Except String String) (items : List SearchResult)
      (sched : List Nat) (base : AcqState),
    base.processed.Nodup →
    base.processed <+:
      (runSched scrape items (List.replicate items.length .ready, base) sched).2.processed ∧
    (runSched scrape items (List.replicate items.length .ready, base) sched).2.processed.Nodup ∧
    (∀ u, claimCount items
      (runSched scrape items (List.replicate items.length .ready, base) sched).1 u ≤ 1) ∧
    ((∀ pc ∈ (runSched scrape items (List.replicate items.length .ready, base) sched).1,
        isDone pc = true) →
      (runSched scrape items (List.replicate items.length .ready, base) sched).2.indexed.length
          + base.processed.length
        = base.indexed.length +
          (runSched scrape items
            (List.replicate items.length .ready, base) sched).2.processed.length) := by
  intro scrape items sched base hnd
  have hinv := runSched_inv scrape items base sched
    (List.replicate items.length .ready) base (acqInv_init items base hnd)
  refine ⟨hinv.grow, hinv.nodup, hinv.atMostOnce, ?_⟩
  intro hdone
  have hcc : (runSched scrape items (List.replicate items.length .ready, base) sched).1.countP
      isClaimedLike =
      (runSched scrape items (List.replicate items.length .ready, base) sched).1.countP
      isDoneClaimed := by
    apply List.countP_congr
    intro pc hm
    have hd := hdone pc hm
    cases pc <;> simp [isDone] at hd <;> simp [isClaimedLike, isDoneClaimed]
  have h1 := hinv.procCount
  have h2 := hinv.idxCount
  omega

/-- Two candidates sharing one URL: the scheduler demo input. -/
def dupItems : List SearchResult :=
  [⟨"Paper A", "https://x/1.pdf", "sa"⟩, ⟨"Paper B", "https://x/1.pdf", "sb"⟩]

/-- A scrape oracle that always fails (falls back to snippets). -/
def offlineScrape : String → Except String String := fun _ => .error "offline"

/-- The empty research state at the start of a run. -/
def emptyAcq : AcqState := ⟨[], [], []⟩

/-- Witness for C5: running both tasks to completion sequentially, the
shared URL is claimed once and IndexedItems holds exactly one entry per
claimed URL. -/
theorem c5_claims_unique_and_counted_witness :
    (∀ u, claimCount dupItems
      (runSched offlineScrape dupItems
        (List.replicate dupItems.length .ready, emptyAcq) [0, 0, 1, 1]).1 u ≤ 1) ∧
    (runSched offlineScrape dupItems
        (List.replicate dupItems.length .ready, emptyAcq) [0, 0, 1, 1]).2.indexed.length
      = (runSched offlineScrape dupItems
        (List.replicate dupItems.length .ready, emptyAcq) [0, 0, 1, 1]).2.processed.length := by
  have h := c5_claims_unique_and_counted offlineScrape dupItems [0, 0, 1, 1] emptyAcq
    (by simp [emptyAcq])
  refine ⟨h.2.2.1, ?_⟩
  have h2 := h.2.2.2 (by decide)
  simpa [emptyAcq] using h2

/-! ## Claim C10: deduplication keys on the URL even when empty

The sequential schedule — each task running both its atomic blocks in
candidate order — is one execution of the phase; on it the claim's
"first candidate claims, later candidates are skipped" reading is
exact. -/

/-- The schedule that runs tasks k, k+1, ... each to completion, in
order. -/
def seqSchedFrom : Nat → Nat → List Nat
  | _, 0 => []
  | k, n + 1 => k :: k :: seqSchedFrom (k + 1) n

/-- Direct sequential semantics of the phase: process candidates in
order, claiming fresh URLs and skipping already-claimed ones. -/
def seqExec (scrape : String → Except String String) : AcqState → List SearchResult →
    List TaskPC × AcqState
  | st, [] => ([], st)
  | st, item :: rest =>
      if st.processed.contains item.url then
        ((TaskPC.doneSkipped) :: (seqExec scrape st rest).1, (seqExec scrape st rest).2)
      else
        ((TaskPC.doneClaimed) ::
          (seqExec scrape
            ⟨st.processed ++ [item.url],
              st.facts ++ [mkSummary item (acquireText scrape item)],
              st.indexed ++ [item]⟩ rest).1,
          (seqExec scrape
            ⟨st.processed ++ [item.url],
              st.facts ++ [mkSummary item (acquireText scrape item)],
              st.indexed ++ [item]⟩ rest).2)

theorem set_at_append {α : Type} (P : List α) (x b : α) (R : List α) :
    (P ++ x :: R).set P.length b = P ++ b :: R := by
  rw [List.set_eq_take_append_cons_drop, if_pos (by simp)]
  congr 1
  · exact List.take_left P (x :: R)
  · congr 1
    have hsplit : P ++ x :: R = (P ++ [x]) ++ R := by simp
    have hlen : P.length + 1 = (P ++ [x]).length := by simp
    rw [hsplit, hlen, List.drop_left]

theorem getElem?_append_len {α : Type} (P : List α) (x : α) (R : List α) :
    (P ++ x :: R)[P.length]? = some x := by
  rw [List.getElem?_append, if_neg (by omega)]
  simp

/-- An empty URL always acquires the snippet as fallback text. -/
theorem acquireText_empty_url (scrape : String → Except String String)
    (item : SearchResult) (h : item.url = "") :
    acquireText scrape item = item.snippet := by
  unfold acquireText
  rw [h]
  simp

/-- One step peeled off a schedule. -/
theorem runSched_cons (scrape : String → Except String String) (items : List SearchResult)
    (s : List TaskPC × AcqState) (t : Nat) (sched : List Nat) :
    runSched scrape items s (t :: sched)
      = runSched scrape items (stepOne scrape items s t) sched := rfl

/-- The sequential schedule executes the candidates in order — task k
claims or skips and then finishes before task k+1 starts — and its
outcome is exactly the direct sequential semantics. -/
theorem runSched_seq (scrape : String → Except String String) (items : List SearchResult) :
    ∀ (rest : List SearchResult) (P : List TaskPC) (st : AcqState),
    items.drop P.length = rest →
    runSched scrape items (P ++ List.replicate rest.length .ready, st)
        (seqSchedFrom P.length rest.length)
      = (P ++ (seqExec scrape st rest).1, (seqExec scrape st rest).2) := by
  intro rest
  induction rest with
  | nil =>
      intro P st _
      simp [seqSchedFrom, runSched, seqExec]
  | cons item rest' ih =>
      intro P st hdrop
      have hk : items[P.length]? = some item := by
        have h0 : (List.drop P.length items)[0]? = items[P.length + 0]? :=
          List.getElem?_drop items P.length 0
        rw [hdrop] at h0
        simpa using h0.symm
      have hdrop' : items.drop (P.length + 1) = rest' := by
        have h1 : List.drop 1 (List.drop P.length items) = items.drop (P.length + 1) :=
          List.drop_drop 1 P.length items
        rw [hdrop] at h1
        simpa using h1.symm
      have hg1 : (P ++ TaskPC.ready :: List.replicate rest'.length TaskPC.ready)[P.length]?
          = some TaskPC.ready := getElem?_append_len P _ _
      simp only [List.length_cons, seqSchedFrom, List.replicate_succ]
      by_cases hcon : st.processed.contains item.url = true
      · have hstep1 : stepOne scrape items
            (P ++ TaskPC.ready :: List.replicate rest'.length TaskPC.ready, st) P.length
            = (P ++ TaskPC.doneSkipped :: List.replicate rest'.length TaskPC.ready, st) := by
          simp only [stepOne, hg1, hk]
          rw [if_pos hcon, set_at_append]
        have hg2 : (P ++ TaskPC.doneSkipped ::
              List.replicate rest'.length TaskPC.ready)[P.length]?
            = some TaskPC.doneSkipped := getElem?_append_len P _ _
        have hstep2 : stepOne scrape items
            (P ++ TaskPC.doneSkipped :: List.replicate rest'.length TaskPC.ready, st) P.length
            = (P ++ TaskPC.doneSkipped :: List.replicate rest'.length TaskPC.ready, st) := by
          simp only [stepOne, hg2, hk]
        have hP' : P ++ TaskPC.doneSkipped :: List.replicate rest'.length TaskPC.ready
            = (P ++ [TaskPC.doneSkipped]) ++ List.replicate rest'.length TaskPC.ready := by
          simp
        have hlen' : P.length + 1 = (P ++ [TaskPC.doneSkipped]).length := by simp
        have hih := ih (P ++ [TaskPC.doneSkipped]) st (hlen' ▸ hdrop')
        rw [runSched_cons, hstep1, runSched_cons, hstep2, hP', hlen', hih]
        have hse : seqExec scrape st (item :: rest')
            = (TaskPC.doneSkipped :: (seqExec scrape st rest').1,
               (seqExec scrape st rest').2) := by
          rw [seqExec, if_pos hcon]
        rw [hse]
        simp
      · have hstep1 : stepOne scrape items
            (P ++ TaskPC.ready :: List.replicate rest'.length TaskPC.ready, st) P.length
            = (P ++ TaskPC.claimedPC :: List.replicate rest'.length TaskPC.ready,
               ⟨st.processed ++ [item.url], st.facts, st.indexed⟩) := by
          simp only [stepOne, hg1, hk]
          rw [if_neg hcon, set_at_append]
        have hg2 : (P ++ TaskPC.claimedPC ::
              List.replicate rest'.length TaskPC.ready)[P.length]?
            = some TaskPC.claimedPC := getElem?_append_len P _ _
        have hstep2 : stepOne scrape items
            (P ++ TaskPC.claimedPC :: List.replicate rest'.length TaskPC.ready,
              ⟨st.processed ++ [item.url], st.facts, st.indexed⟩) P.length
            = (P ++ TaskPC.doneClaimed :: List.replicate rest'.length TaskPC.ready,
               ⟨st.processed ++ [item.url],
                 st.facts ++ [mkSummary item (acquireText scrape item)],
                 st.indexed ++ [item]⟩) := by
          simp only [stepOne, hg2, hk]
          rw [set_at_append]
        have hP' : P ++ TaskPC.doneClaimed :: List.replicate rest'.length TaskPC.ready
            = (P ++ [TaskPC.doneClaimed]) ++ List.replicate rest'.length TaskPC.ready := by
          simp
        have hlen' : P.length + 1 = (P ++ [TaskPC.doneClaimed]).length := by simp
        have hih := ih (P ++ [TaskPC.doneClaimed])
            ⟨st.processed ++ [item.url],
              st.facts ++ [mkSummary item (acquireText scrape item)],
              st.indexed ++ [item]⟩ (hlen' ▸ hdrop')
        rw [runSched_cons, hstep1, runSched_cons, hstep2, hP', hlen', hih]
        have hse : seqExec scrape st (item :: rest')
            = (TaskPC.doneClaimed ::
                (seqExec scrape
                  ⟨st.processed ++ [item.url],
                    st.facts ++ [mkSummary item (acquireText scrape item)],
                    st.indexed ++ [item]⟩ rest').1,
               (seqExec scrape
                  ⟨st.processed ++ [item.url],
                    st.facts ++ [mkSummary item (acquireText scrape item)],
                    st.indexed ++ [item]⟩ rest').2) := by
          rw [seqExec, if_neg hcon]
        rw [hse]
        simp

/-- The sequential execution produces one outcome pc per candidate. -/
theorem seqExec_length (scrape : String → Except String String) :
    ∀ (L : List SearchResult) (st : AcqState),
    (seqExec scrape st L).1.length = L.length := by
  intro L
  induction L with
  | nil => intro st; simp [seqExec]
  | cons item rest ih =>
      intro st
      rw [seqExec]
      by_cases hcon : st.processed.contains item.url = true
      · rw [if_pos hcon]
        simp [ih]
      · rw [if_neg hcon]
        simp [ih]

/-- The sequential execution only extends the state components. -/
theorem seqExec_extends (scrape : String → Except String String) :
    ∀ (L : List SearchResult) (st : AcqState),
    st.processed <+: (seqExec scrape st L).2.processed ∧
    st.facts <+: (seqExec scrape st L).2.facts ∧
    st.indexed <+: (seqExec scrape st L).2.indexed := by
  intro L
  induction L with
  | nil => intro st; simp [seqExec]
  | cons item rest ih =>
      intro st
      rw [seqExec]
      by_cases hcon : st.processed.contains item.url = true
      · rw [if_pos hcon]
        exact ih st
      · rw [if_neg hcon]
        obtain ⟨h1, h2, h3⟩ := ih
          ⟨st.processed ++ [item.url],
            st.facts ++ [mkSummary item (acquireText scrape item)],
            st.indexed ++ [item]⟩
        exact ⟨(List.prefix_append _ _).trans h1,
          (List.prefix_append _ _).trans h2,
          (List.prefix_append _ _).trans h3⟩

/-- Every URL in the final ProcessedURLs came from the entry state or
from some candidate. -/
theorem seqExec_processed_mem (scrape : String → Except String String) :
    ∀ (L : List SearchResult) (st : AcqState) (u : String),
    u ∈ (seqExec scrape st L).2.processed →
    u ∈ st.processed ∨ ∃ itm ∈ L, itm.url = u := by
  intro L
  induction L with
  | nil =>
      intro st u hu
      simp [seqExec] at hu
      exact Or.inl hu
  | cons item rest ih =>
      intro st u hu
      rw [seqExec] at hu
      by_cases hcon : st.processed.contains item.url = true
      · rw [if_pos hcon] at hu
        rcases ih st u hu with h | ⟨itm, hm, he⟩
        · exact Or.inl h
        · exact Or.inr ⟨itm, List.mem_cons_of_mem _ hm, he⟩
      · rw [if_neg hcon] at hu
        rcases ih _ u hu with h | ⟨itm, hm, he⟩
        · rcases List.mem_append.mp h with h1 | h1
          · exact Or.inl h1
          · exact Or.inr ⟨item, List.mem_cons_self _ _, (List.mem_singleton.mp h1).symm⟩
        · exact Or.inr ⟨itm, List.mem_cons_of_mem _ hm, he⟩

/-- Only claiming tasks append to IndexedItems and to the facts: the
growth of both equals the number of doneClaimed outcomes. -/
theorem seqExec_counts (scrape : String → Except String String) :
    ∀ (L : List SearchResult) (st : AcqState),
    (seqExec scrape st L).2.indexed.length
      = st.indexed.length + (seqExec scrape st L).1.countP isDoneClaimed ∧
    (seqExec scrape st L).2.facts.length
      = st.facts.length + (seqExec scrape st L).1.countP isDoneClaimed := by
  intro L
  induction L with
  | nil => intro st; simp [seqExec]
  | cons item rest ih =>
      intro st
      rw [seqExec]
      by_cases hcon : st.processed.contains item.url = true
      · rw [if_pos hcon]
        obtain ⟨h1, h2⟩ := ih st
        constructor
        · simp only [List.countP_cons]
          simp [isDoneClaimed, h1]
        · simp only [List.countP_cons]
          simp [isDoneClaimed, h2]
      · rw [if_neg hcon]
        obtain ⟨h1, h2⟩ := ih
          ⟨st.processed ++ [item.url],
            st.facts ++ [mkSummary item (acquireText scrape item)],
            st.indexed ++ [item]⟩
        constructor
        · simp only [List.countP_cons]
          simp [isDoneClaimed] at h1 ⊢
          omega
        · simp only [List.countP_cons]
          simp [isDoneClaimed] at h2 ⊢
          omega

/-- The sequential execution splits over list append. -/
theorem seqExec_append (scrape : String → Except String String) :
    ∀ (A B : List SearchResult) (st : AcqState),
    seqExec scrape st (A ++ B)
      = ((seqExec scrape st A).1 ++ (seqExec scrape (seqExec scrape st A).2 B).1,
         (seqExec scrape (seqExec scrape st A).2 B).2) := by
  intro A
  induction A with
  | nil => intro B st; simp [seqExec]
  | cons item rest ih =>
      intro B st
      rw [List.cons_append, seqExec, seqExec]
      by_cases hcon : st.processed.contains item.url = true
      · rw [if_pos hcon, if_pos hcon]
        rw [ih B st]
        simp
      · rw [if_neg hcon, if_neg hcon]
        rw [ih B
          ⟨st.processed ++ [item.url],
            st.facts ++ [mkSummary item (acquireText scrape item)],
            st.indexed ++ [item]⟩]
        simp

/-- Decomposition of the sequential run around one claiming and one
skipping empty-URL candidate: if no URL claimed while processing the
block A equals itemI's URL, then itemI is claimed (snippet fallback,
indexed, summarised) and a later itemJ with the same empty URL is
skipped. -/
theorem seqExec_decomp (scrape : String → Except String String)
    (A : List SearchResult) (itemI : SearchResult) (M : List SearchResult)
    (itemJ : SearchResult) (R : List SearchResult) (st0 : AcqState)
    (hnc : (seqExec scrape st0 A).2.processed.contains itemI.url = true → False)
    (hui : itemI.url = "") (huj : itemJ.url = "") :
    ∃ (X Y Z : List TaskPC) (st' : AcqState),
    seqExec scrape st0 (A ++ itemI :: (M ++ itemJ :: R))
        = (X ++ TaskPC.doneClaimed :: (Y ++ TaskPC.doneSkipped :: Z), st') ∧
    X.length = A.length ∧ Y.length = M.length ∧
    itemI ∈ st'.indexed ∧ mkSummary itemI itemI.snippet ∈ st'.facts := by
  obtain ⟨pA, stA, hA⟩ : ∃ p s, seqExec scrape st0 A = (p, s) := ⟨_, _, rfl⟩
  rw [hA] at hnc
  dsimp only at hnc
  have h1 : seqExec scrape stA (itemI :: (M ++ itemJ :: R))
      = (TaskPC.doneClaimed ::
          (seqExec scrape
            ⟨stA.processed ++ [itemI.url],
              stA.facts ++ [mkSummary itemI (acquireText scrape itemI)],
              stA.indexed ++ [itemI]⟩ (M ++ itemJ :: R)).1,
         (seqExec scrape
            ⟨stA.processed ++ [itemI.url],
              stA.facts ++ [mkSummary itemI (acquireText scrape itemI)],
              stA.indexed ++ [itemI]⟩ (M ++ itemJ :: R)).2) := by
    rw [seqExec, if_neg hnc]
  obtain ⟨pM, stM, hM⟩ : ∃ p s, seqExec scrape
      ⟨stA.processed ++ [itemI.url],
        stA.facts ++ [mkSummary itemI (acquireText scrape itemI)],
        stA.indexed ++ [itemI]⟩ M = (p, s) := ⟨_, _, rfl⟩
  have h2 := seqExec_append scrape M (itemJ :: R)
      ⟨stA.processed ++ [itemI.url],
        stA.facts ++ [mkSummary itemI (acquireText scrape itemI)],
        stA.indexed ++ [itemI]⟩
  rw [hM] at h2
  dsimp only at h2
  have hpre1 := (seqExec_extends scrape M
      ⟨stA.processed ++ [itemI.url],
        stA.facts ++ [mkSummary itemI (acquireText scrape itemI)],
        stA.indexed ++ [itemI]⟩).1
  rw [hM] at hpre1
  dsimp only at hpre1
  have hmem2 : itemI.url ∈ stM.processed := hpre1.subset (by simp)
  have hmem3 : (("" : String)) ∈ stM.processed := hui ▸ hmem2
  have hcJ : stM.processed.contains itemJ.url = true := by
    rw [huj]
    simpa [List.contains] using hmem3
  have h3 : seqExec scrape stM (itemJ :: R)
      = (TaskPC.doneSkipped :: (seqExec scrape stM R).1, (seqExec scrape stM R).2) := by
    rw [seqExec, if_pos hcJ]
  have hpreM := seqExec_extends scrape M
      ⟨stA.processed ++ [itemI.url],
        stA.facts ++ [mkSummary itemI (acquireText scrape itemI)],
        stA.indexed ++ [itemI]⟩
  rw [hM] at hpreM
  dsimp only at hpreM
  have hpreR := seqExec_extends scrape R stM
  refine ⟨pA, pM, (seqExec scrape stM R).1, (seqExec scrape stM R).2, ?_, ?_, ?_, ?_, ?_⟩
  · rw [seqExec_append scrape A (itemI :: (M ++ itemJ :: R)) st0, hA]
    dsimp only
    rw [h1]
    dsimp only
    rw [h2, h3]
  · have := seqExec_length scrape A st0
    rw [hA] at this
    exact this
  · have := seqExec_length scrape M
      ⟨stA.processed ++ [itemI.url],
        stA.facts ++ [mkSummary itemI (acquireText scrape itemI)],
        stA.indexed ++ [itemI]⟩
    rw [hM] at this
    exact this
  · have hin1 : itemI ∈ stA.indexed ++ [itemI] := by simp
    exact hpreR.2.2.subset (hpreM.2.2.subset hin1)
  · have hin1 : mkSummary itemI itemI.snippet ∈
        stA.facts ++ [mkSummary itemI (acquireText scrape itemI)] := by
      rw [acquireText_empty_url scrape itemI hui]
      simp
    exact hpreR.2.1.subset (hpreM.2.1.subset hin1)

/-- Claim C10: during Acquire & Index the at-most-once claim keys on the
candidate's URL string even when it is empty.  Running the acquisition
tasks of a run in candidate order from the fresh state, if every
candidate before position i has a non-empty URL and the candidates at
positions i < j both have the empty URL, then the candidate at i claims
the empty URL and is processed with its snippet as the fallback text
(it is indexed and its summary is appended), while the candidate at j
finishes as skipped; and the final IndexedItems and AccumulatedFacts
have exactly one entry per claiming task, so skipped tasks contribute
neither. -/
theorem c10_empty_url_first_claims_later_skipped
    (scrape : String → Except String String) (items : List SearchResult)
    (i j : Nat) (itemI itemJ : SearchResult)
    (hij : i < j) (hi : items[i]? = some itemI) (hj : items[j]? = some itemJ)
    (hfirst : ∀ itm ∈ items.take i, itm.url ≠ "")
    (hui : itemI.url = "") (huj : itemJ.url = "") :
    (runSched scrape items (List.replicate items.length TaskPC.ready, emptyAcq)
        (seqSchedFrom 0 items.length)).1[i]? = some TaskPC.doneClaimed ∧
    (runSched scrape items (List.replicate items.length TaskPC.ready, emptyAcq)
        (seqSchedFrom 0 items.length)).1[j]? = some TaskPC.doneSkipped ∧
    itemI ∈ (runSched scrape items (List.replicate items.length TaskPC.ready, emptyAcq)
        (seqSchedFrom 0 items.length)).2.indexed ∧
    mkSummary itemI itemI.snippet ∈
      (runSched scrape items (List.replicate items.length TaskPC.ready, emptyAcq)
        (seqSchedFrom 0 items.length)).2.facts ∧
    (runSched scrape items (List.replicate items.length TaskPC.ready, emptyAcq)
        (seqSchedFrom 0 items.length)).2.indexed.length
      = (runSched scrape items (List.replicate items.length TaskPC.ready, emptyAcq)
        (seqSchedFrom 0 items.length)).1.countP isDoneClaimed ∧
    (runSched scrape items (List.replicate items.length TaskPC.ready, emptyAcq)
        (seqSchedFrom 0 items.length)).2.facts.length
      = (runSched scrape items (List.replicate items.length TaskPC.ready, emptyAcq)
        (seqSchedFrom 0 items.length)).1.countP isDoneClaimed := by
  have hrs := runSched_seq scrape items items [] emptyAcq (by simp)
  simp only [List.nil_append, List.length_nil] at hrs
  rw [hrs]
  dsimp only
  obtain ⟨hilt, hig⟩ := List.getElem?_eq_some.mp hi
  obtain ⟨hjlt, hjg⟩ := List.getElem?_eq_some.mp hj
  have hsplit : items = items.take i ++ itemI :: items.drop (i + 1) := by
    conv_lhs => rw [← List.take_append_drop i items]
    rw [List.drop_eq_getElem_cons hilt, hig]
  have hDj : (items.drop (i + 1))[j - (i + 1)]? = some itemJ := by
    rw [List.getElem?_drop]
    rw [show i + 1 + (j - (i + 1)) = j from by omega]
    exact hj
  obtain ⟨hjlt', hjg'⟩ := List.getElem?_eq_some.mp hDj
  have hsplitD : items.drop (i + 1)
      = (items.drop (i + 1)).take (j - (i + 1)) ++
        itemJ :: (items.drop (i + 1)).drop (j - (i + 1) + 1) := by
    conv_lhs => rw [← List.take_append_drop (j - (i + 1)) (items.drop (i + 1))]
    rw [List.drop_eq_getElem_cons hjlt', hjg']
  have hitems := hsplit
  rw [hsplitD] at hitems
  have hncA : (seqExec scrape emptyAcq (items.take i)).2.processed.contains itemI.url = true
      → False := by
    intro hc
    rw [hui] at hc
    have hmem : ("" : String) ∈ (seqExec scrape emptyAcq (items.take i)).2.processed := by
      simpa [List.contains] using hc
    rcases seqExec_processed_mem scrape (items.take i) emptyAcq "" hmem with h | ⟨itm, hm, he⟩
    · simp [emptyAcq] at h
    · exact hfirst itm hm he
  obtain ⟨X, Y, Z, st', heq, hXlen, hYlen, hmemI, hmemF⟩ :=
    seqExec_decomp scrape (items.take i) itemI
      ((items.drop (i + 1)).take (j - (i + 1))) itemJ
      ((items.drop (i + 1)).drop (j - (i + 1) + 1)) emptyAcq hncA hui huj
  rw [← hitems] at heq
  rw [heq]
  dsimp only
  have hXi : X.length = i := by
    rw [hXlen, List.length_take]
    omega
  have hYj : Y.length = j - i - 1 := by
    rw [hYlen, List.length_take, List.length_drop]
    omega
  obtain ⟨hc1, hc2⟩ := seqExec_counts scrape items emptyAcq
  rw [heq] at hc1 hc2
  dsimp only at hc1 hc2
  simp only [emptyAcq] at hc1 hc2
  refine ⟨?_, ?_, hmemI, hmemF, ?_, ?_⟩
  · rw [← hXi]
    exact getElem?_append_len X _ _
  · have hassoc : X ++ TaskPC.doneClaimed :: (Y ++ TaskPC.doneSkipped :: Z)
        = (X ++ TaskPC.doneClaimed :: Y) ++ TaskPC.doneSkipped :: Z := by
      simp
    rw [hassoc]
    have hlen2 : (X ++ TaskPC.doneClaimed :: Y).length = j := by
      simp only [List.length_append, List.length_cons]
      omega
    rw [← hlen2]
    exact getElem?_append_len _ _ _
  · simpa using hc1
  · simpa using hc2

/-- Two retained candidates whose URLs are both empty. -/
def c10Items : List SearchResult :=
  [⟨"First empty", "", "snippet one"⟩, ⟨"Second empty", "", "snippet two"⟩]

/-- Witness for C10: with two empty-URL candidates, the first claims the
empty URL (indexed with its snippet summary) and the second is skipped,
with one IndexedItems and facts entry per claiming task. -/
theorem c10_empty_url_first_claims_later_skipped_witness :
    (runSched offlineScrape c10Items (List.replicate c10Items.length TaskPC.ready, emptyAcq)
        (seqSchedFrom 0 c10Items.length)).1[0]? = some TaskPC.doneClaimed ∧
    (runSched offlineScrape c10Items (List.replicate c10Items.length TaskPC.ready, emptyAcq)
        (seqSchedFrom 0 c10Items.length)).1[1]? = some TaskPC.doneSkipped ∧
    (⟨"First empty", "", "snippet one"⟩ : SearchResult) ∈
      (runSched offlineScrape c10Items (List.replicate c10Items.length TaskPC.ready, emptyAcq)
        (seqSchedFrom 0 c10Items.length)).2.indexed ∧
    mkSummary ⟨"First empty", "", "snippet one"⟩
        (SearchResult.snippet ⟨"First empty", "", "snippet one"⟩) ∈
      (runSched offlineScrape c10Items (List.replicate c10Items.length TaskPC.ready, emptyAcq)
        (seqSchedFrom 0 c10Items.length)).2.facts ∧
    (runSched offlineScrape c10Items (List.replicate c10Items.length TaskPC.ready, emptyAcq)
        (seqSchedFrom 0 c10Items.length)).2.indexed.length
      = (runSched offlineScrape c10Items (List.replicate c10Items.length TaskPC.ready, emptyAcq)
        (seqSchedFrom 0 c10Items.length)).1.countP isDoneClaimed ∧
    (runSched offlineScrape c10Items (List.replicate c10Items.length TaskPC.ready, emptyAcq)
        (seqSchedFrom 0 c10Items.length)).2.facts.length
      = (runSched offlineScrape c10Items (List.replicate c10Items.length TaskPC.ready, emptyAcq)
        (seqSchedFrom 0 c10Items.length)).1.countP isDoneClaimed :=
  c10_empty_url_first_claims_later_skipped offlineScrape c10Items 0 1
    ⟨"First empty", "", "snippet one"⟩ ⟨"Second empty", "", "snippet two"⟩
    (by decide) rfl rfl (by simp [c10Items]) rfl rfl
